import Mathlib

/-!
# PMRingBuffer: queue, task and controller layer of `RingBuffer.c`

A shallow embedding of `src/RingBuffer.h` / `src/RingBuffer.c` over an explicit
memory.

Modelling conventions.

* A pointer is a `Nat`; `0` is `NULL`.  Every struct type has its own store
  (`Store`), a map from addresses to struct values together with the set of
  addresses that are currently allocated.
* `malloc` takes the address the allocator picks as an extra argument.  An
  answer that is `0` or that names a block still allocated is an allocation
  failure, so quantifying over that argument covers every allocator.  `malloc`
  does not touch the contents of the block it hands out: a fresh block holds
  whatever the store held there.
* `free` releases the block and leaves in it whatever the allocator writes there:
  every store carries a function `scrub`, and after `free(p)` the block at `p`,
  which held `v`, holds `scrub p v`.  Quantifying over memories covers every
  allocator, from one that leaves released blocks untouched to one that clears
  them.  `queue_pop` executes `q->head = q->head->next` right after
  `free(q->head)`, so the link it reads is the one `scrub` left.
* A function that dereferences `NULL`, or frees a block that is not allocated,
  faults: it returns `none`.
* The spin locks are not modelled; the code is run sequentially.  A lock operation
  counts as an access to the struct that holds the lock, so it faults through a
  null pointer and, like any access, is allowed on a block that was just freed.
* `int` fields are `Int`.  The element counter `q->size` is only ever stepped
  by one per linked node and is kept unbounded; the ring cursors, which take
  caller-chosen deltas, wrap to 32 bits (`wrap32`).
* `ctrl->qops` is written once, by `init_ringbuffer`, with the default queue
  functions; calls through it are modelled as calls of those functions.
-/

namespace PMRingBuffer

/-! ## Enumerations of `RingBuffer.h` -/

inductive RingBufferInitState where
  | RingBufferInit_OK
  | RingBufferInit_ERR
  | RingBufferInit_NOMEM
  deriving DecidableEq, Repr

inductive RingBufferQueueOpRes where
  | RingBufferQueueOp_OK
  | RingBufferQueueOp_ERR
  | RingBufferQueueOp_NOMEM
  | RingBufferQueueOp_NULL
  deriving DecidableEq, Repr

inductive RingBufferIOTaskType where
  | RingBufferIOTask_WRITE
  | RingBufferIOTask_READ
  | RingBufferIOTask_FLUSH
  deriving DecidableEq, Repr

inductive RingBufferIOTaskState where
  | READY
  | ONGOING
  | SUCCESS
  | FAILED
  deriving DecidableEq, Repr

open RingBufferInitState RingBufferQueueOpRes RingBufferIOTaskType RingBufferIOTaskState

/-! ## Structs of `RingBuffer.h` -/

/-- Struct `RingBufferQueueNode`: the payload pointer `node` and the two links. -/
structure RingBufferQueueNode where
  node : Nat
  prev : Nat
  next : Nat
  deriving DecidableEq, Repr

/-- Struct `RingBufferQueue` without its lock. -/
structure RingBufferQueue where
  size : Int
  head : Nat
  tail : Nat
  deriving DecidableEq, Repr

/-- Struct `RingBufferIOTask`; `priv` is the field `private`. -/
structure RingBufferIOTask where
  type : RingBufferIOTaskType
  state : RingBufferIOTaskState
  offset : Int
  size : Int
  data : Nat
  priv : Nat
  excute : Nat
  callback : Nat
  deriving DecidableEq, Repr

/-- Struct `RingBuffer` without its lock; `name` is the 32 byte label. -/
structure RingBuffer where
  name : List Nat
  total_size : Int
  head : Int
  tail : Int
  pool : Nat
  deriving DecidableEq, Repr

/-- Struct `RingBufferController` without the two function tables. -/
structure RingBufferController where
  ring : Nat
  wr_queue : Nat
  rd_queue : Nat
  fl_queue : Nat
  deriving DecidableEq, Repr

/-! ## Memory -/

/-- One typed region of memory: the value at each address, the allocated addresses, and
what the allocator leaves in a block it releases (`scrub p v` for the block at `p` that
held `v`). -/
structure Store (α : Type) where
  cell : Nat → α
  live : Nat → Bool
  scrub : Nat → α → α

namespace Store

variable {α : Type}

/-- The allocator answers `choice`; a null or already allocated answer is a failure (`0`). -/
def malloc (s : Store α) (choice : Nat) : Nat × Store α :=
  if choice ≠ 0 ∧ s.live choice = false then
    (choice, { s with live := Function.update s.live choice true })
  else
    (0, s)

/-- Library `free`: a no-op on `NULL`, a fault on a block that is not allocated; a released
block is no longer allocated and holds what the allocator left in it. -/
def free (s : Store α) (p : Nat) : Option (Store α) :=
  if p = 0 then some s
  else if s.live p = true then
    some { s with
      cell := Function.update s.cell p (s.scrub p (s.cell p))
      live := Function.update s.live p false }
  else none

/-- Store `v` at address `p`. -/
def write (s : Store α) (p : Nat) (v : α) : Store α :=
  { s with cell := Function.update s.cell p v }

end Store

/-- The whole memory: one store per struct type, and the byte pools. -/
structure Mem where
  ctrls : Store RingBufferController
  rings : Store RingBuffer
  pools : Store Unit
  queues : Store RingBufferQueue
  nodes : Store RingBufferQueueNode
  tasks : Store RingBufferIOTask

/-- Constant `DEFAULT_RINGBUFFER_POOL_SIZE`, `4 * KB`. -/
def DEFAULT_RINGBUFFER_POOL_SIZE : Int := 4 * 1024

/-- Reduce an integer to the range of a 32 bit `int`. -/
def wrap32 (x : Int) : Int := (x + 2 ^ 31) % 2 ^ 32 - 2 ^ 31

/-! ## Ring geometry (`RingBuffer.c` lines 23-63) -/

/-- Function `inc_ring_buffer_head`: `ring->head += size`. -/
def inc_ring_buffer_head (m : Mem) (ring : Nat) (size : Int) : Option Mem :=
  if ring = 0 then none
  else
    let r := m.rings.cell ring
    some { m with rings := m.rings.write ring { r with head := wrap32 (r.head + size) } }

/-- Function `get_ring_buffer_head`: it returns `ring->total_size`, as the source does. -/
def get_ring_buffer_head (m : Mem) (ring : Nat) : Option Int :=
  if ring = 0 then none else some (m.rings.cell ring).total_size

/-- Function `inc_ring_buffer_tail`: `ring->tail += size`. -/
def inc_ring_buffer_tail (m : Mem) (ring : Nat) (size : Int) : Option Mem :=
  if ring = 0 then none
  else
    let r := m.rings.cell ring
    some { m with rings := m.rings.write ring { r with tail := wrap32 (r.tail + size) } }

/-- Function `get_ring_buffer_tail`: it returns `ring->tail`. -/
def get_ring_buffer_tail (m : Mem) (ring : Nat) : Option Int :=
  if ring = 0 then none else some (m.rings.cell ring).tail

/-- Function `inc_ring_buffer_size`: `ring->total_size += size`. -/
def inc_ring_buffer_size (m : Mem) (ring : Nat) (size : Int) : Option Mem :=
  if ring = 0 then none
  else
    let r := m.rings.cell ring
    some { m with rings := m.rings.write ring { r with total_size := wrap32 (r.total_size + size) } }

/-- Function `get_ring_buffer_size`: it returns `ring->total_size`. -/
def get_ring_buffer_size (m : Mem) (ring : Nat) : Option Int :=
  if ring = 0 then none else some (m.rings.cell ring).total_size

/-! ## Tasks (`RingBuffer.c` lines 78-98) -/

/-- Function `make_io_task`: returns the task pointer (`0` for `NULL`) and the new memory.
Only `offset`, `size` and `type` are assigned. -/
def make_io_task (m : Mem) (type : RingBufferIOTaskType) (offset size : Int) (choice : Nat) :
    Nat × Mem :=
  let (io_task, tasks1) := m.tasks.malloc choice
  if io_task = 0 then (0, m)
  else
    let t := tasks1.cell io_task
    let t := { t with offset := offset }
    let t := { t with size := size }
    let t := { t with type := type }
    (io_task, { m with tasks := tasks1.write io_task t })

/-- Function `destroy_io_task`: an `ONGOING` task is kept (a message is printed), any other
task is freed. -/
def destroy_io_task (m : Mem) (io_task : Nat) : Option Mem :=
  if io_task = 0 then none
  else if (m.tasks.cell io_task).state = ONGOING then some m
  else (m.tasks.free io_task).map (fun ts => { m with tasks := ts })

/-! ## Queue (`RingBuffer.c` lines 100-203) -/

/-- Function `queue_init`: the result code, the value left in `*q`, and the new memory. -/
def queue_init (m : Mem) (choice : Nat) : RingBufferQueueOpRes × Nat × Mem :=
  let (q, queues1) := m.queues.malloc choice
  if q = 0 then (RingBufferQueueOp_NOMEM, 0, m)
  else
    let Q := queues1.cell q
    let Q := { Q with head := 0, tail := 0 }
    let Q := { Q with size := 0 }
    (RingBufferQueueOp_OK, q, { m with queues := queues1.write q Q })

/-- Function `queue_push`. -/
def queue_push (m : Mem) (q : Nat) (data : Nat) (choice : Nat) :
    Option (RingBufferQueueOpRes × Mem) :=
  if q = 0 then some (RingBufferQueueOp_NULL, m)
  else
    let (new_node, nodes1) := m.nodes.malloc choice
    if new_node = 0 then some (RingBufferQueueOp_NOMEM, m)
    else
      let n := nodes1.cell new_node
      let nodes2 := nodes1.write new_node { n with next := 0, node := data }
      let Q := m.queues.cell q
      if Q.head ≠ 0 then
        if Q.tail = 0 then none
        else
          let nodes3 := nodes2.write Q.tail { nodes2.cell Q.tail with next := new_node }
          let nodes4 := nodes3.write new_node { nodes3.cell new_node with prev := Q.tail }
          let Q1 := { Q with tail := new_node }
          some (RingBufferQueueOp_OK,
            { m with nodes := nodes4, queues := m.queues.write q { Q1 with size := Q1.size + 1 } })
      else
        let Q1 := { Q with head := new_node, tail := new_node }
        let nodes3 := nodes2.write new_node { nodes2.cell new_node with prev := 0 }
        some (RingBufferQueueOp_OK,
          { m with nodes := nodes3, queues := m.queues.write q { Q1 with size := Q1.size + 1 } })

/-- Function `queue_pop`: the result code, the value written to `*data` (if any), and the
new memory.  In the branch with more than one node the source runs `free(q->head)` and then
`q->head = q->head->next`: the link is read from the released block, here `nodes1`, the
store after the free. -/
def queue_pop (m : Mem) (q : Nat) : Option (RingBufferQueueOpRes × Option Nat × Mem) :=
  let Q := m.queues.cell q
  if q = 0 ∨ Q.size = 0 then some (RingBufferQueueOp_NULL, none, m)
  else if Q.head = Q.tail then
    if Q.head = 0 then none
    else
      let data := (m.nodes.cell Q.head).node
      (m.nodes.free Q.head).map fun nodes1 =>
        let Q1 := { Q with head := 0, tail := 0 }
        (RingBufferQueueOp_OK, some data,
          { m with nodes := nodes1, queues := m.queues.write q { Q1 with size := Q1.size - 1 } })
  else
    if Q.head = 0 then none
    else
      let data := (m.nodes.cell Q.head).node
      (m.nodes.free Q.head).map fun nodes1 =>
        let Q1 := { Q with head := (nodes1.cell Q.head).next }
        (RingBufferQueueOp_OK, some data,
          { m with nodes := nodes1, queues := m.queues.write q { Q1 with size := Q1.size - 1 } })

/-- Function `queue_top`: the result code and the value written to `*data` (if any); memory
is not written. -/
def queue_top (m : Mem) (q : Nat) : Option (RingBufferQueueOpRes × Option Nat) :=
  let Q := m.queues.cell q
  if q = 0 ∨ Q.size = 0 then some (RingBufferQueueOp_NULL, none)
  else if Q.head = 0 then none
  else some (RingBufferQueueOp_OK, some (m.nodes.cell Q.head).node)

/-- Function `queue_empty`: the value of `(bool)q->size`. -/
def queue_empty (m : Mem) (q : Nat) : Option Bool :=
  if q = 0 then none else some (decide ((m.queues.cell q).size ≠ 0))

/-! ## Controller (`RingBuffer.c` lines 205-280) -/

/-- Function `ring_buffer_write`: the returned `int` and the new memory.  `c_task` and
`c_node` are the allocator's answers inside `make_io_task` and `queue_push`. -/
def ring_buffer_write (m : Mem) (ctrl : Nat) (size : Int) (data : Nat) (c_task c_node : Nat) :
    Option (Int × Mem) :=
  if ctrl = 0 then none
  else
    (get_ring_buffer_size m (m.ctrls.cell ctrl).ring).bind fun offset =>
      let (iotask, m1) := make_io_task m RingBufferIOTask_WRITE offset size c_task
      if iotask = 0 then some (1, m1)
      else
        (queue_push m1 (m1.ctrls.cell ctrl).wr_queue iotask c_node).bind fun (res, m2) =>
          if res ≠ RingBufferQueueOp_OK then
            (destroy_io_task m2 iotask).map fun m3 => (1, m3)
          else some (0, m2)

/-- Function `ring_buffer_read`. -/
def ring_buffer_read (m : Mem) (ctrl : Nat) (size : Int) (data : Nat) (c_task c_node : Nat) :
    Option (Int × Mem) :=
  if ctrl = 0 then none
  else
    (get_ring_buffer_size m (m.ctrls.cell ctrl).ring).bind fun offset =>
      let (iotask, m1) := make_io_task m RingBufferIOTask_READ offset size c_task
      if iotask = 0 then some (1, m1)
      else
        (queue_push m1 (m1.ctrls.cell ctrl).rd_queue iotask c_node).bind fun (res, m2) =>
          if res ≠ RingBufferQueueOp_OK then
            (destroy_io_task m2 iotask).map fun m3 => (1, m3)
          else some (0, m2)

/-- Function `ring_buffer_flush`. -/
def ring_buffer_flush (m : Mem) (ctrl : Nat) (size : Int) (data : Nat) (c_task c_node : Nat) :
    Option (Int × Mem) :=
  if ctrl = 0 then none
  else
    (get_ring_buffer_size m (m.ctrls.cell ctrl).ring).bind fun offset =>
      let (iotask, m1) := make_io_task m RingBufferIOTask_FLUSH offset size c_task
      if iotask = 0 then some (1, m1)
      else
        (queue_push m1 (m1.ctrls.cell ctrl).fl_queue iotask c_node).bind fun (res, m2) =>
          if res ≠ RingBufferQueueOp_OK then
            (destroy_io_task m2 iotask).map fun m3 => (1, m3)
          else some (0, m2)

/-- The 14 bytes of the literal `TestRingBuffer`. -/
def ring_label : List Nat := [84, 101, 115, 116, 82, 105, 110, 103, 66, 117, 102, 102, 101, 114]

/-- Function `init_ringbuffer`: the result code, the value left in `*ctrl_p`, and the new
memory.  The six extra arguments are the allocator's answers, in program order: controller,
ring, pool, write queue, read queue, flush queue.  The results of the pool allocation and of
the three `queue_init` calls are not examined by the code. -/
def init_ringbuffer (m : Mem) (c_ctrl c_ring c_pool c_wr c_rd c_fl : Nat) :
    Option (RingBufferInitState × Nat × Mem) :=
  let (ctrl, ctrls1) := m.ctrls.malloc c_ctrl
  if ctrl = 0 then some (RingBufferInit_NOMEM, 0, m)
  else
    let m1 := { m with ctrls := ctrls1 }
    let (ring, rings1) := m1.rings.malloc c_ring
    let m2 := { m1 with ctrls := m1.ctrls.write ctrl { m1.ctrls.cell ctrl with ring := ring } }
    if ring = 0 then
      (m2.ctrls.free ctrl).map fun ctrls3 => (RingBufferInit_NOMEM, 0, { m2 with ctrls := ctrls3 })
    else
      let m3 := { m2 with rings := rings1 }
      let R := m3.rings.cell ring
      let R := { R with head := 0, tail := 0 }
      let R := { R with total_size := DEFAULT_RINGBUFFER_POOL_SIZE }
      let (pool, pools1) := m3.pools.malloc c_pool
      let R := { R with pool := pool }
      let R := { R with name := ring_label ++ R.name.drop ring_label.length }
      let m4 := { m3 with pools := pools1, rings := m3.rings.write ring R }
      let (_, wr, m5) := queue_init m4 c_wr
      let m5 := { m5 with ctrls := m5.ctrls.write ctrl { m5.ctrls.cell ctrl with wr_queue := wr } }
      let (_, rd, m6) := queue_init m5 c_rd
      let m6 := { m6 with ctrls := m6.ctrls.write ctrl { m6.ctrls.cell ctrl with rd_queue := rd } }
      let (_, fl, m7) := queue_init m6 c_fl
      let m7 := { m7 with ctrls := m7.ctrls.write ctrl { m7.ctrls.cell ctrl with fl_queue := fl } }
      some (RingBufferInit_OK, ctrl, m7)

/-! ## Call sequences on one queue -/

/-- One call on a queue: `queue_push(q, data)` with the allocator's answer, `queue_pop`,
`queue_top`. -/
inductive QueueCall where
  | push (data choice : Nat)
  | pop
  | top
  deriving DecidableEq, Repr

/-- What a call returned: its result code and the value it wrote to `*data`, if it wrote. -/
structure QueueEvent where
  call : QueueCall
  res : RingBufferQueueOpRes
  out : Option Nat
  deriving DecidableEq, Repr

/-- Perform one call on the queue `q`. -/
def queue_step (m : Mem) (q : Nat) : QueueCall → Option (QueueEvent × Mem)
  | .push d c => (queue_push m q d c).map fun r => (⟨.push d c, r.1, none⟩, r.2)
  | .pop => (queue_pop m q).map fun r => (⟨.pop, r.1, r.2.1⟩, r.2.2)
  | .top => (queue_top m q).map fun r => (⟨.top, r.1, r.2⟩, m)

/-- Perform the calls in order; the events are listed in call order. -/
def queue_run (m : Mem) (q : Nat) : List QueueCall → Option (List QueueEvent × Mem)
  | [] => some ([], m)
  | c :: cs =>
    (queue_step m q c).bind fun r =>
      (queue_run r.2 q cs).map fun rs => (r.1 :: rs.1, rs.2)

/-- The payloads of the pushes that returned OK, in call order. -/
def okPushData : List QueueEvent → List Nat
  | [] => []
  | ⟨.push d _, RingBufferQueueOp_OK, _⟩ :: es => d :: okPushData es
  | _ :: es => okPushData es

/-- What each pop that returned OK wrote to `*data`, in call order. -/
def okPopOut : List QueueEvent → List (Option Nat)
  | [] => []
  | ⟨.pop, RingBufferQueueOp_OK, o⟩ :: es => o :: okPopOut es
  | _ :: es => okPopOut es

/-- The loop `while (q->size) pop(q, &iter)` of `testv1`, listing what each pop wrote.
`fuel` bounds the number of iterations; running out of it gives `none`. -/
def pop_until_empty : Nat → Mem → Nat → Option (List (Option Nat) × Mem)
  | fuel, m, q =>
    if q = 0 then none
    else if (m.queues.cell q).size = 0 then some ([], m)
    else
      match fuel with
      | 0 => none
      | fuel + 1 =>
        (queue_pop m q).bind fun r =>
          (pop_until_empty fuel r.2.2 q).map fun rs => (r.2.1 :: rs.1, rs.2)

/-! ## Representation predicates -/

/-- The nodes `ps` are allocated, pairwise distinct, and linked in this order through `next`
starting at `p`, the last `next` being `NULL`. -/
def Chain (s : Store RingBufferQueueNode) : Nat → List Nat → Prop
  | p, [] => p = 0
  | p, a :: as => p = a ∧ a ≠ 0 ∧ s.live a = true ∧ a ∉ as ∧ Chain s (s.cell a).next as

/-- The queue at `q` is well formed and its nodes, from head to tail, are `ps`. -/
def QueueRep (m : Mem) (q : Nat) (ps : List Nat) : Prop :=
  q ≠ 0 ∧ Chain m.nodes (m.queues.cell q).head ps ∧
    (m.queues.cell q).tail = ps.getLast?.getD 0 ∧ (m.queues.cell q).size = ps.length

/-- The payload pointers held by the nodes `ps`. -/
def payloads (m : Mem) (ps : List Nat) : List Nat :=
  ps.map fun p => (m.nodes.cell p).node

/-- A memory with nothing allocated, whose allocator leaves released blocks untouched. -/
def Mem.empty : Mem where
  ctrls := ⟨fun _ => ⟨0, 0, 0, 0⟩, fun _ => false, fun _ v => v⟩
  rings := ⟨fun _ => ⟨[], 0, 0, 0, 0⟩, fun _ => false, fun _ v => v⟩
  pools := ⟨fun _ => (), fun _ => false, fun _ v => v⟩
  queues := ⟨fun _ => ⟨0, 0, 0⟩, fun _ => false, fun _ v => v⟩
  nodes := ⟨fun _ => ⟨0, 0, 0⟩, fun _ => false, fun _ v => v⟩
  tasks := ⟨fun _ => ⟨RingBufferIOTask_WRITE, READY, 0, 0, 0, 0, 0, 0⟩, fun _ => false,
    fun _ v => v⟩

/-- The allocator leaves the `next` word of a released node as it was. -/
def KeepsNext (s : Store RingBufferQueueNode) : Prop :=
  ∀ p v, (s.scrub p v).next = v.next

/-- Memory `m2` differs from `m` at most in the queue struct at `q` and in the nodes that
satisfy `touched`. -/
def SameOutside (m m2 : Mem) (q : Nat) (touched : Nat → Prop) : Prop :=
  m2.ctrls = m.ctrls ∧ m2.rings = m.rings ∧ m2.pools = m.pools ∧ m2.tasks = m.tasks ∧
    m2.queues.live = m.queues.live ∧ (∀ q2, q2 ≠ q → m2.queues.cell q2 = m.queues.cell q2) ∧
    (∀ a, ¬ touched a → m2.nodes.cell a = m.nodes.cell a ∧ m2.nodes.live a = m.nodes.live a)

/-! ## Sample memories -/

/-- The memory after `queue_init` on the empty memory, the allocator answering `1`. -/
def Mem.fresh_queue : Mem := (queue_init Mem.empty 1).2.2

/-- A memory holding one allocated task, at address `1`, in the given state. -/
def Mem.one_task (st : RingBufferIOTaskState) : Mem :=
  { Mem.empty with
    tasks := ⟨fun _ => ⟨RingBufferIOTask_READ, st, 4096, 64, 0, 0, 0, 0⟩, fun a => a == 1,
      fun _ v => v⟩ }

/-- A memory with nothing allocated whose free task blocks hold stale bytes that read as an
`ONGOING` task. -/
def Mem.stale_tasks : Mem :=
  { Mem.empty with
    tasks := ⟨fun _ => ⟨RingBufferIOTask_READ, ONGOING, 0, 0, 0, 0, 0, 0⟩, fun _ => false,
      fun _ v => v⟩ }

/-- A memory with nothing allocated whose allocator clears the nodes it releases. -/
def Mem.clearing : Mem :=
  { Mem.empty with nodes := ⟨fun _ => ⟨0, 0, 0⟩, fun _ => false, fun _ _ => ⟨0, 0, 0⟩⟩ }

/-- The memory after `queue_init` on `Mem.clearing`, the allocator answering `1`. -/
def Mem.clearing_queue : Mem := (queue_init Mem.clearing 1).2.2

/-- A memory holding one queue, at address `1`, with the nodes `1` and `2` carrying the
payloads `7` and `8`; its allocator clears the nodes it releases. -/
def Mem.two_nodes : Mem :=
  { Mem.empty with
    queues := ⟨fun _ => ⟨2, 1, 2⟩, fun a => a == 1, fun _ v => v⟩
    nodes := ⟨fun a => if a = 1 then ⟨7, 0, 2⟩ else ⟨8, 1, 0⟩, fun a => a == 1 || a == 2,
      fun _ _ => ⟨0, 0, 0⟩⟩ }

/-! ## Controllers -/

/-- The queue a task type is dispatched to: `wr_queue`, `rd_queue` or `fl_queue`. -/
def queue_of : RingBufferIOTaskType → RingBufferController → Nat
  | RingBufferIOTask_WRITE, C => C.wr_queue
  | RingBufferIOTask_READ, C => C.rd_queue
  | RingBufferIOTask_FLUSH, C => C.fl_queue

/-- The submit function of a task type: `ring_buffer_write`, `ring_buffer_read` or
`ring_buffer_flush`. -/
def ring_buffer_submit :
    RingBufferIOTaskType → Mem → Nat → Int → Nat → Nat → Nat → Option (Int × Mem)
  | RingBufferIOTask_WRITE => ring_buffer_write
  | RingBufferIOTask_READ => ring_buffer_read
  | RingBufferIOTask_FLUSH => ring_buffer_flush

/-- The body the three submit functions share, with the task type and its queue as
parameters (see `ring_buffer_submit_eq`). -/
def submit_body (ty : RingBufferIOTaskType) (m : Mem) (ctrl : Nat) (size : Int)
    (c_task c_node : Nat) : Option (Int × Mem) :=
  if ctrl = 0 then none
  else
    (get_ring_buffer_size m (m.ctrls.cell ctrl).ring).bind fun offset =>
      let (iotask, m1) := make_io_task m ty offset size c_task
      if iotask = 0 then some (1, m1)
      else
        (queue_push m1 (queue_of ty (m1.ctrls.cell ctrl)) iotask c_node).bind fun (res, m2) =>
          if res ≠ RingBufferQueueOp_OK then
            (destroy_io_task m2 iotask).map fun m3 => (1, m3)
          else some (0, m2)

/-- Either a null queue pointer with no nodes, or a well-formed queue with nodes `ps`. -/
def QueueOpt (m : Mem) (q : Nat) (ps : List Nat) : Prop :=
  (q = 0 ∧ ps = []) ∨ QueueRep m q ps

/-- An initialised controller at `ctrl`: the ring pointer is not null, each of the three
queue pointers is null or a well-formed queue with the nodes `L ty`, two queue pointers that
are not null differ, no node is in two queues, and every queued payload is an allocated
task. -/
def CtrlRep (m : Mem) (ctrl : Nat) (L : RingBufferIOTaskType → List Nat) : Prop :=
  ctrl ≠ 0 ∧ (m.ctrls.cell ctrl).ring ≠ 0 ∧
    (∀ ty, QueueOpt m (queue_of ty (m.ctrls.cell ctrl)) (L ty)) ∧
    (∀ ty ty2, ty ≠ ty2 →
      queue_of ty (m.ctrls.cell ctrl) = queue_of ty2 (m.ctrls.cell ctrl) →
      queue_of ty (m.ctrls.cell ctrl) = 0) ∧
    (∀ ty ty2, ty ≠ ty2 → ∀ a ∈ L ty, a ∉ L ty2) ∧
    (∀ ty, ∀ a ∈ L ty, m.tasks.live (m.nodes.cell a).node = true)

/-- The queue at `q` with nodes `ps` is the same in `m2` as in `m`: same struct (size, head,
tail), same nodes, same payloads, and the same task behind each payload. -/
def QueueKept (m m2 : Mem) (q : Nat) (ps : List Nat) : Prop :=
  m2.queues.cell q = m.queues.cell q ∧ QueueOpt m2 q ps ∧ payloads m2 ps = payloads m ps ∧
    ∀ a ∈ ps, m2.nodes.cell a = m.nodes.cell a ∧
      m2.tasks.cell (m.nodes.cell a).node = m.tasks.cell (m.nodes.cell a).node

/-! ## Sample controller memories -/

/-- The memory after `init_ringbuffer` on the empty memory, the allocator answering `1` for
the controller, the ring and the pool and `1`, `2`, `3` for the queues. -/
def Mem.fresh_ctrl : Mem :=
  match init_ringbuffer Mem.empty 1 1 1 1 2 3 with
  | some r => r.2.2
  | none => Mem.empty

/-- The memory after `ring_buffer_write` of size 128 on `Mem.fresh_ctrl`, the allocator
answering `1` for the task and `1` for the node. -/
def Mem.after_write : Mem :=
  match ring_buffer_write Mem.fresh_ctrl 1 128 0 1 1 with
  | some r => r.2
  | none => Mem.empty

/-- The memory after `ring_buffer_read` of size 64 on `Mem.fresh_ctrl`, the allocator
answering `5` for the task and `6` for the node. -/
def Mem.after_read : Mem :=
  match ring_buffer_read Mem.fresh_ctrl 1 64 0 5 6 with
  | some r => r.2
  | none => Mem.empty

/-! ## Sample rings -/

/-- The lower bound of a C `int`. -/
def INT_MIN : Int := -2147483648

/-- The upper bound of a C `int`. -/
def INT_MAX : Int := 2147483647

/-- A memory whose ring at address `1` has the given head, tail and total size. -/
def Mem.one_ring (head tail total_size : Int) : Mem :=
  { Mem.empty with
    rings := ⟨fun _ => ⟨[], total_size, head, tail, 0⟩, fun a => a == 1, fun _ v => v⟩ }

/-- The memory `init_ringbuffer` leaves on the empty memory when the controller and the ring
are allocated (both at `1`) and the pool and the three queue allocations fail. -/
def Mem.init_unchecked : Mem :=
  match init_ringbuffer Mem.empty 1 1 0 0 0 0 with
  | some r => r.2.2
  | none => Mem.empty

/-- The memory `init_ringbuffer` leaves on the empty memory when the controller, the ring and
the pool are allocated (all at `1`) and the three queue allocations fail. -/
def Mem.init_no_queues : Mem :=
  match init_ringbuffer Mem.empty 1 1 1 0 0 0 with
  | some r => r.2.2
  | none => Mem.empty

/-- The nodes linked from `p` through `next` up to the first null link, in order.  `fuel`
bounds the number of links followed; running out of it gives `none`. -/
def linked_nodes : Nat → Store RingBufferQueueNode → Nat → Option (List Nat)
  | fuel, s, p =>
    if p = 0 then some []
    else
      match fuel with
      | 0 => none
      | fuel + 1 => (linked_nodes fuel s (s.cell p).next).map fun ps => p :: ps

/-! ## Call sequences on one controller -/

/-- One call on a controller: a submit of the given type (with the allocator's answers), or
an advance of the ring's head, tail or total size. -/
inductive CtrlCall where
  | submit (ty : RingBufferIOTaskType) (size : Int) (data c_task c_node : Nat)
  | inc_head (d : Int)
  | inc_tail (d : Int)
  | inc_size (d : Int)
  deriving DecidableEq, Repr

/-- The delta of an advance; 0 for a submit. -/
def CtrlCall.delta : CtrlCall → Int
  | .submit _ _ _ _ _ => 0
  | .inc_head d => d
  | .inc_tail d => d
  | .inc_size d => d

/-- What a call adds to the ring's total size. -/
def CtrlCall.size_delta : CtrlCall → Int
  | .inc_size d => d
  | _ => 0

/-- Perform one call on the controller at `ctrl`, the advances on `ctrl->ring`. -/
def ctrl_step (m : Mem) (ctrl : Nat) : CtrlCall → Option Mem
  | .submit ty size data c_task c_node =>
    (ring_buffer_submit ty m ctrl size data c_task c_node).map fun r => r.2
  | .inc_head d => inc_ring_buffer_head m (m.ctrls.cell ctrl).ring d
  | .inc_tail d => inc_ring_buffer_tail m (m.ctrls.cell ctrl).ring d
  | .inc_size d => inc_ring_buffer_size m (m.ctrls.cell ctrl).ring d

/-- Perform the calls in order. -/
def ctrl_run (m : Mem) (ctrl : Nat) : List CtrlCall → Option Mem
  | [] => some m
  | c :: cs => (ctrl_step m ctrl c).bind fun m1 => ctrl_run m1 ctrl cs

/-- Every advance in the list has a non-negative delta. -/
def nonneg_deltas (calls : List CtrlCall) : Bool :=
  calls.all fun c => decide (0 ≤ c.delta)

/-- Along the run, no advance of the total size takes it above `INT_MAX`. -/
def size_fits (m : Mem) (ctrl : Nat) : List CtrlCall → Bool
  | [] => true
  | c :: cs =>
    decide ((m.rings.cell (m.ctrls.cell ctrl).ring).total_size + c.size_delta ≤ INT_MAX) &&
      match ctrl_step m ctrl c with
      | some m1 => size_fits m1 ctrl cs
      | none => true

/-- The offsets recorded by the tasks behind the nodes `ps`, in order. -/
def task_offsets (m : Mem) (ps : List Nat) : List Int :=
  ps.map fun p => (m.tasks.cell (m.nodes.cell p).node).offset

/-- The offsets of the tasks queued at `q`, read from head to tail. -/
def queue_offsets (fuel : Nat) (m : Mem) (q : Nat) : Option (List Int) :=
  (linked_nodes fuel m.nodes (m.queues.cell q).head).map (task_offsets m)

/-- Two writes on `Mem.fresh_ctrl` with an advance of the total size by `INT_MAX` between. -/
def wrapping_calls : List CtrlCall :=
  [.submit RingBufferIOTask_WRITE 8 0 1 1, .inc_size 2147483647,
    .submit RingBufferIOTask_WRITE 8 0 2 2]

/-- The memory after the first call of `wrapping_calls` on `Mem.fresh_ctrl`. -/
def Mem.wrapping1 : Mem :=
  match ctrl_step Mem.fresh_ctrl 1 (.submit RingBufferIOTask_WRITE 8 0 1 1) with
  | some r => r
  | none => Mem.empty

/-- The memory after the second call of `wrapping_calls`. -/
def Mem.wrapping2 : Mem :=
  match ctrl_step Mem.wrapping1 1 (.inc_size 2147483647) with
  | some r => r
  | none => Mem.empty

/-- The memory after the third call of `wrapping_calls`. -/
def Mem.wrapping3 : Mem :=
  match ctrl_step Mem.wrapping2 1 (.submit RingBufferIOTask_WRITE 8 0 2 2) with
  | some r => r
  | none => Mem.empty

/-- Two writes on `Mem.fresh_ctrl` with an advance of the total size by 100 between. -/
def fitting_calls : List CtrlCall :=
  [.submit RingBufferIOTask_WRITE 8 0 1 1, .inc_size 100,
    .submit RingBufferIOTask_WRITE 8 0 2 2]

/-- The memory after the second call of `fitting_calls` on `Mem.fresh_ctrl` (the first call
gives `Mem.wrapping1`). -/
def Mem.fitting2 : Mem :=
  match ctrl_step Mem.wrapping1 1 (.inc_size 100) with
  | some r => r
  | none => Mem.empty

/-- The memory after the third call of `fitting_calls`. -/
def Mem.fitting3 : Mem :=
  match ctrl_step Mem.fitting2 1 (.submit RingBufferIOTask_WRITE 8 0 2 2) with
  | some r => r
  | none => Mem.empty

/-- Invariant of a run of controller calls: the controller is initialised, the ring's total
size is an `int` value, and in each queue the recorded offsets are non-decreasing in FIFO
order and none exceeds the ring's total size. -/
def OffsetInv (m : Mem) (ctrl : Nat) (L : RingBufferIOTaskType → List Nat) : Prop :=
  CtrlRep m ctrl L ∧ INT_MIN ≤ (m.rings.cell (m.ctrls.cell ctrl).ring).total_size ∧
    ∀ ty, List.Pairwise (fun x y : Int => x ≤ y) (task_offsets m (L ty)) ∧
      ∀ x ∈ task_offsets m (L ty), x ≤ (m.rings.cell (m.ctrls.cell ctrl).ring).total_size

/-! ## Teardown (`RingBuffer.c` lines 118-134 and 282-303) -/

/-- The loop of `queue_exit`: while `(*q)->head` is not null, set it to `head->next` and
free the old head.  `fuel` bounds the iterations; running out of it gives `none`. -/
def queue_exit_loop : Nat → Mem → Nat → Option Mem
  | fuel, m, q =>
    if (m.queues.cell q).head = 0 then some m
    else
      match fuel with
      | 0 => none
      | fuel + 1 =>
        let to_free := (m.queues.cell q).head
        let Q1 := { m.queues.cell q with head := (m.nodes.cell (m.queues.cell q).head).next }
        let m1 := { m with queues := m.queues.write q Q1 }
        (m1.nodes.free to_free).bind fun nodes1 =>
          queue_exit_loop fuel { m1 with nodes := nodes1 } q

/-- Function `queue_exit`, called with `*q = q`: the result code and the new memory.  The
pointer `*q` itself is not written. -/
def queue_exit (fuel : Nat) (m : Mem) (q : Nat) : Option (RingBufferQueueOpRes × Mem) :=
  if q = 0 then some (RingBufferQueueOp_OK, m)
  else
    (queue_exit_loop fuel m q).bind fun m1 =>
      (m1.queues.free q).map fun queues1 =>
        (RingBufferQueueOp_OK, { m1 with queues := queues1 })

/-- Function `exit_ringbuffer`, called with `*ctrl_p = ctrl`: the value left in `*ctrl_p` and
the new memory.  The call `pthread_spin_destroy(&ctrl->ring->meta_lock)` accesses the ring,
so it faults on a null ring pointer; the ring block has been released by then, and as locks
are not part of the state the call has no other effect here. -/
def exit_ringbuffer (fuel : Nat) (m : Mem) (ctrl : Nat) : Option (Nat × Mem) :=
  if ctrl = 0 then some (0, m)
  else
    let ring := (m.ctrls.cell ctrl).ring
    (if ring ≠ 0 then
      (if (m.rings.cell ring).pool ≠ 0 then m.pools.free (m.rings.cell ring).pool
        else some m.pools).bind fun pools1 =>
        (m.rings.free ring).map fun rings1 => { m with pools := pools1, rings := rings1 }
      else some m).bind fun m1 =>
    (queue_exit fuel m1 (m1.ctrls.cell ctrl).wr_queue).bind fun r1 =>
    (queue_exit fuel r1.2 (r1.2.ctrls.cell ctrl).rd_queue).bind fun r2 =>
    (queue_exit fuel r2.2 (r2.2.ctrls.cell ctrl).fl_queue).bind fun r3 =>
    if (r3.2.ctrls.cell ctrl).ring = 0 then none
    else (r3.2.ctrls.free ctrl).map fun ctrls1 => (0, { r3.2 with ctrls := ctrls1 })

/-- The blocks an initialised controller owns are allocated: the controller, its ring, the
pool unless null, and each queue struct unless null. -/
def CtrlOwned (m : Mem) (ctrl : Nat) : Prop :=
  m.ctrls.live ctrl = true ∧ m.rings.live (m.ctrls.cell ctrl).ring = true ∧
    ((m.rings.cell (m.ctrls.cell ctrl).ring).pool ≠ 0 →
      m.pools.live (m.rings.cell (m.ctrls.cell ctrl).ring).pool = true) ∧
    ∀ ty, queue_of ty (m.ctrls.cell ctrl) ≠ 0 →
      m.queues.live (queue_of ty (m.ctrls.cell ctrl)) = true

/-- Memory `m2` is `m` after a `queue_exit` of the queue at `q` with nodes `ps`: only the
contents and allocation of the nodes `ps`, and the struct and allocation of `q`, may
differ. -/
def ExitFrame (m m2 : Mem) (q : Nat) (ps : List Nat) : Prop :=
  m2.ctrls = m.ctrls ∧ m2.rings = m.rings ∧ m2.pools = m.pools ∧ m2.tasks = m.tasks ∧
    (∀ a, a ∉ ps → m2.nodes.cell a = m.nodes.cell a) ∧
    (∀ a, a ∉ ps → m2.nodes.live a = m.nodes.live a) ∧
    (∀ q2, q2 ≠ q → m2.queues.cell q2 = m.queues.cell q2 ∧ m2.queues.live q2 = m.queues.live q2)

/-! ## Lemmas on stores and chains -/

theorem malloc_ok {α : Type} (s : Store α) (c : Nat) (hc : c ≠ 0)
    (hl : s.live c = false) :
    s.malloc c = (c, { s with live := Function.update s.live c true }) := by
  simp [Store.malloc, hc, hl]

theorem malloc_fail {α : Type} (s : Store α) (c : Nat)
    (h : c = 0 ∨ s.live c = true) : s.malloc c = (0, s) := by
  rcases h with h | h <;> simp [Store.malloc, h]

theorem choice_cases {α : Type} (s : Store α) (c : Nat) :
    (c ≠ 0 ∧ s.live c = false) ∨ (c = 0 ∨ s.live c = true) := by
  by_cases h0 : c = 0
  · exact Or.inr (Or.inl h0)
  · cases hl : s.live c
    · exact Or.inl ⟨h0, rfl⟩
    · exact Or.inr (Or.inr rfl)

theorem free_ok {α : Type} (s : Store α) (p : Nat) (hp : p ≠ 0)
    (hl : s.live p = true) :
    s.free p = some { s with
      cell := Function.update s.cell p (s.scrub p (s.cell p))
      live := Function.update s.live p false } := by
  simp [Store.free, hp, hl]

theorem chain_mem {s : Store RingBufferQueueNode} :
    ∀ {ps : List Nat} {p : Nat}, Chain s p ps → ∀ a ∈ ps, a ≠ 0 ∧ s.live a = true
  | [], _, _, a, ha => by simp at ha
  | b :: bs, p, h, a, ha => by
    obtain ⟨_, hb0, hbl, _, hrest⟩ := h
    rcases List.mem_cons.mp ha with rfl | ha
    · exact ⟨hb0, hbl⟩
    · exact chain_mem hrest a ha

theorem chain_nodup {s : Store RingBufferQueueNode} :
    ∀ {ps : List Nat} {p : Nat}, Chain s p ps → ps.Nodup
  | [], _, _ => List.nodup_nil
  | _ :: _, _, h => List.nodup_cons.mpr ⟨h.2.2.2.1, chain_nodup h.2.2.2.2⟩

theorem chain_frame {s s' : Store RingBufferQueueNode} :
    ∀ {ps : List Nat} {p : Nat}, Chain s p ps →
      (∀ a ∈ ps, s'.cell a = s.cell a ∧ s'.live a = s.live a) → Chain s' p ps
  | [], _, h, _ => h
  | b :: bs, p, h, hs => by
    obtain ⟨hp, hb0, hbl, hnb, hrest⟩ := h
    have hb := hs b (List.mem_cons_self _ _)
    refine ⟨hp, hb0, by rw [hb.2]; exact hbl, hnb, ?_⟩
    rw [hb.1]
    exact chain_frame hrest (fun a ha => hs a (List.mem_cons_of_mem _ ha))

/-- Linking a new last node `c` behind a non-empty chain. -/
theorem chain_snoc {s s' : Store RingBufferQueueNode} {c : Nat} (hc0 : c ≠ 0)
    (hcl : s'.live c = true) (hcn : (s'.cell c).next = 0) :
    ∀ {ps : List Nat} {p : Nat} (hne : ps ≠ []), Chain s p ps → c ∉ ps →
      (∀ a ∈ ps, s'.live a = true) →
      (∀ a ∈ ps, a ≠ ps.getLast hne → (s'.cell a).next = (s.cell a).next) →
      (s'.cell (ps.getLast hne)).next = c → Chain s' p (ps ++ [c])
  | [], _, hne, _, _, _, _, _ => absurd rfl hne
  | [b], p, _, h, hcb, hl, _, hlast => by
    obtain ⟨hp, hb0, _, _, _⟩ := h
    simp only [List.getLast_singleton] at hlast
    refine ⟨hp, hb0, hl b (List.mem_singleton_self b), ?_, ?_⟩
    · intro hbc
      simp at hbc hcb
      exact hcb hbc.symm
    · rw [hlast]
      exact ⟨rfl, hc0, hcl, by simp, hcn⟩
  | b :: b2 :: bs, p, _, h, hcb, hl, hnx, hlast => by
    obtain ⟨hp, hb0, _, hnb, hrest⟩ := h
    have hlast_mem : (b2 :: bs).getLast (by simp) ∈ b2 :: bs := List.getLast_mem _
    have hb_ne : b ≠ (b :: b2 :: bs).getLast (by simp) := by
      intro hEq
      rw [List.getLast_cons (by simp)] at hEq
      exact hnb (hEq ▸ hlast_mem)
    refine ⟨hp, hb0, hl b (List.mem_cons_self _ _), ?_, ?_⟩
    · intro hmem
      rcases List.mem_append.mp hmem with hm | hm
      · exact hnb hm
      · simp at hm
        exact hcb (by simp [hm])
    · rw [hnx b (List.mem_cons_self _ _) hb_ne]
      refine chain_snoc hc0 hcl hcn (by simp) hrest
        (fun hm => hcb (List.mem_cons_of_mem _ hm))
        (fun a ha => hl a (List.mem_cons_of_mem _ ha)) ?_ ?_
      · intro a ha hne2
        refine hnx a (List.mem_cons_of_mem _ ha) ?_
        rw [List.getLast_cons (by simp)]
        exact hne2
      · rw [List.getLast_cons (by simp)] at hlast
        exact hlast

/-! ## The queue operations on a well-formed queue -/

theorem queue_push_ok {m : Mem} {q : Nat} {ps : List Nat} (hq : QueueRep m q ps) (d c : Nat)
    (hc : c ≠ 0) (hl : m.nodes.live c = false) :
    ∃ m2, queue_push m q d c = some (RingBufferQueueOp_OK, m2) ∧ QueueRep m2 q (ps ++ [c]) ∧
      payloads m2 (ps ++ [c]) = payloads m ps ++ [d] ∧
      SameOutside m m2 q (fun a => a = c ∨ a ∈ ps) := by
  obtain ⟨hq0, hch, htl, hsz⟩ := hq
  have hcps : c ∉ ps := fun hm => by
    have := (chain_mem hch c hm).2
    simp [hl] at this
  generalize hres : queue_push m q d c = res
  cases ps with
  | nil =>
    have hh : (m.queues.cell q).head = 0 := hch
    simp only [queue_push, hq0, malloc_ok _ c hc hl, hh, if_false, ne_eq, not_true,
      if_neg hc] at hres
    subst hres
    refine ⟨_, rfl, ⟨hq0, ?_, ?_, ?_⟩, ?_, ?_⟩
    · simp [Chain, Store.write, hc]
    · simp [Store.write]
    · simp [Store.write, hsz]
    · simp [payloads, Store.write]
    · refine ⟨rfl, rfl, rfl, rfl, rfl, ?_, ?_⟩
      · intro q2 hq2
        simp [Store.write, Function.update_noteq hq2]
      · intro a ha
        have hac : a ≠ c := fun h => ha (Or.inl h)
        simp [Store.write, Function.update_noteq hac]
  | cons b bs =>
    have hne : b :: bs ≠ [] := by simp
    have hh : (m.queues.cell q).head = b := hch.1
    have hb0 : b ≠ 0 := hch.2.1
    have htl2 : (m.queues.cell q).tail = (b :: bs).getLast hne := by
      rw [htl, List.getLast?_eq_getLast _ hne]; rfl
    have htmem : (b :: bs).getLast hne ∈ b :: bs := List.getLast_mem hne
    have ht0 : (b :: bs).getLast hne ≠ 0 := (chain_mem hch _ htmem).1
    have htc : (b :: bs).getLast hne ≠ c := fun h => hcps (h ▸ htmem)
    simp only [queue_push, hq0, malloc_ok _ c hc hl, hh, htl2, if_false, ne_eq,
      if_neg hc, hb0, ht0, not_false_eq_true, if_true] at hres
    subst hres
    refine ⟨_, rfl, ⟨hq0, ?_, ?_, ?_⟩, ?_, ?_⟩
    · refine chain_snoc (s := m.nodes) hc ?_ ?_ hne ?_ hcps ?_ ?_ ?_
      · simp [Store.write]
      · simp [Store.write, Function.update_noteq htc.symm]
      · simpa [Store.write, hh] using hch
      · intro a ha
        have hac : a ≠ c := fun h => hcps (h ▸ ha)
        simp [Store.write, Function.update_noteq hac, (chain_mem hch a ha).2]
      · intro a ha hat
        have hac : a ≠ c := fun h => hcps (h ▸ ha)
        simp [Store.write, Function.update_noteq hac, Function.update_noteq hat]
      · simp [Store.write, Function.update_noteq htc]
    · show _ = ((b :: bs) ++ [c]).getLast?.getD 0
      rw [List.getLast?_concat]
      simp [Store.write]
    · simp [Store.write, hsz]
    · simp only [payloads, List.map_append]
      congr 1
      · apply List.map_congr_left
        intro a ha
        have hac : a ≠ c := fun h => hcps (h ▸ ha)
        by_cases hat : a = (b :: bs).getLast hne
        · subst hat
          simp [Store.write, Function.update_noteq hac]
        · simp [Store.write, Function.update_noteq hac, Function.update_noteq hat]
      · simp [Store.write, Function.update_noteq htc.symm]
    · refine ⟨rfl, rfl, rfl, rfl, rfl, ?_, ?_⟩
      · intro q2 hq2
        simp [Store.write, Function.update_noteq hq2]
      · intro a ha
        have hac : a ≠ c := fun h => ha (Or.inl h)
        have hat : a ≠ (b :: bs).getLast hne := fun h => ha (Or.inr (h ▸ htmem))
        simp [Store.write, Function.update_noteq hac, Function.update_noteq hat]

theorem queue_push_nomem (m : Mem) (q d c : Nat) (hq : q ≠ 0)
    (hc : c = 0 ∨ m.nodes.live c = true) :
    queue_push m q d c = some (RingBufferQueueOp_NOMEM, m) := by
  simp [queue_push, hq, malloc_fail _ c hc]

/-- A pop on a well-formed non-empty queue returns OK with the payload of the first node,
whatever the allocator leaves in the released node. -/
theorem queue_pop_returns {m : Mem} {q p : Nat} {ps : List Nat}
    (hq : QueueRep m q (p :: ps)) :
    ∃ m2, queue_pop m q = some (RingBufferQueueOp_OK, some (m.nodes.cell p).node, m2) ∧
      (m2.queues.cell q).size = (m.queues.cell q).size - 1 ∧ m2.nodes.live p = false := by
  obtain ⟨hq0, hch, htl, hsz⟩ := hq
  obtain ⟨hh, hp0, hpl, hpn, hrest⟩ := hch
  have hs0 : (m.queues.cell q).size ≠ 0 := by
    rw [hsz]; simp; omega
  generalize hres : queue_pop m q = res
  by_cases hht : p = (m.queues.cell q).tail
  · simp only [queue_pop, hq0, hs0, hh, ← hht, hp0, or_self, if_false, if_true,
      free_ok _ p hp0 hpl, Option.map_some'] at hres
    subst hres
    exact ⟨_, rfl, by simp [Store.write], by simp⟩
  · simp only [queue_pop, hq0, hs0, hh, hht, hp0, or_self, if_false,
      free_ok _ p hp0 hpl, Option.map_some'] at hres
    subst hres
    exact ⟨_, rfl, by simp [Store.write], by simp⟩

/-- A pop on a well-formed non-empty queue, when the allocator leaves the `next` word of
the released node as it was: the remaining nodes stay queued. -/
theorem queue_pop_ok {m : Mem} {q p : Nat} {ps : List Nat} (hq : QueueRep m q (p :: ps))
    (hk : KeepsNext m.nodes) :
    ∃ m2, queue_pop m q = some (RingBufferQueueOp_OK, some (m.nodes.cell p).node, m2) ∧
      QueueRep m2 q ps ∧ payloads m2 ps = payloads m ps ∧
      SameOutside m m2 q (fun a => a = p) := by
  obtain ⟨hq0, hch, htl, hsz⟩ := hq
  obtain ⟨hh, hp0, hpl, hpn, hrest⟩ := hch
  have hs0 : (m.queues.cell q).size ≠ 0 := by
    rw [hsz]; simp; omega
  generalize hres : queue_pop m q = res
  cases ps with
  | nil =>
    have htl2 : (m.queues.cell q).tail = p := by simpa using htl
    simp only [queue_pop, hq0, hs0, hh, htl2, hp0, or_self, if_false, if_true,
      free_ok _ p hp0 hpl, Option.map_some'] at hres
    subst hres
    refine ⟨_, rfl, ⟨hq0, ?_, ?_, ?_⟩, rfl, ?_⟩
    · simp [Chain, Store.write]
    · simp [Store.write]
    · simp [Store.write, hsz]
    · refine ⟨rfl, rfl, rfl, rfl, rfl, ?_, ?_⟩
      · intro q2 hq2
        simp [Store.write, Function.update_noteq hq2]
      · intro a ha
        simp [Function.update_noteq ha]
  | cons b bs =>
    have hne : b :: bs ≠ [] := by simp
    have htl2 : (m.queues.cell q).tail = (b :: bs).getLast hne := by
      rw [htl, List.getLast?_cons_cons, List.getLast?_eq_getLast _ hne]; rfl
    have htmem : (b :: bs).getLast hne ∈ b :: bs := List.getLast_mem hne
    have hpt : p ≠ (b :: bs).getLast hne := fun h => hpn (h ▸ htmem)
    simp only [queue_pop, hq0, hs0, hh, htl2, hp0, hpt, or_self, if_false,
      free_ok _ p hp0 hpl, Option.map_some'] at hres
    subst hres
    have hfr : ∀ a ∈ b :: bs, a ≠ p := fun a ha h => hpn (h ▸ ha)
    refine ⟨_, rfl, ⟨hq0, ?_, ?_, ?_⟩, ?_, ?_⟩
    · refine chain_frame (s := m.nodes) ?_ ?_
      · simpa [Store.write, hk p (m.nodes.cell p)] using hrest
      · intro a ha
        simp [Function.update_noteq (hfr a ha)]
    · simp only [Store.write, Function.update_same]
      rw [List.getLast?_eq_getLast _ hne]; rfl
    · simp only [Store.write, Function.update_same, hsz]
      simp
    · apply List.map_congr_left
      intro a ha
      simp [Function.update_noteq (hfr a ha)]
    · refine ⟨rfl, rfl, rfl, rfl, rfl, ?_, ?_⟩
      · intro q2 hq2
        simp [Store.write, Function.update_noteq hq2]
      · intro a ha
        simp [Function.update_noteq ha]

theorem queue_push_scrub {m m2 : Mem} {q d c : Nat} {res : RingBufferQueueOpRes}
    (h : queue_push m q d c = some (res, m2)) : m2.nodes.scrub = m.nodes.scrub := by
  unfold queue_push at h
  by_cases hq : q = 0
  · simp only [if_pos hq, Option.some.injEq, Prod.mk.injEq] at h
    rw [← h.2]
  · simp only [if_neg hq] at h
    rcases choice_cases m.nodes c with hc | hc
    · rw [malloc_ok _ _ hc.1 hc.2] at h
      simp only [if_neg hc.1] at h
      split at h
      · split at h
        · exact absurd h (by simp)
        · simp only [Option.some.injEq, Prod.mk.injEq] at h
          rw [← h.2]
          rfl
      · simp only [Option.some.injEq, Prod.mk.injEq] at h
        rw [← h.2]
        rfl
    · rw [malloc_fail _ _ hc] at h
      simp only [if_true, Option.some.injEq, Prod.mk.injEq] at h
      rw [← h.2]

theorem free_scrub {α : Type} {s s2 : Store α} {p : Nat} (h : s.free p = some s2) :
    s2.scrub = s.scrub := by
  unfold Store.free at h
  split at h
  · simp only [Option.some.injEq] at h
    rw [← h]
  · split at h
    · simp only [Option.some.injEq] at h
      rw [← h]
    · simp at h

theorem queue_pop_scrub {m m2 : Mem} {q : Nat} {res : RingBufferQueueOpRes} {o : Option Nat}
    (h : queue_pop m q = some (res, o, m2)) : m2.nodes.scrub = m.nodes.scrub := by
  unfold queue_pop at h
  simp only at h
  split at h
  · simp only [Option.some.injEq, Prod.mk.injEq] at h
    rw [← h.2.2]
  · split at h <;> split at h
    · simp at h
    · simp only [Option.map_eq_some', Prod.mk.injEq] at h
      obtain ⟨n1, hf, _, _, rfl⟩ := h
      exact free_scrub hf
    · simp at h
    · simp only [Option.map_eq_some', Prod.mk.injEq] at h
      obtain ⟨n1, hf, _, _, rfl⟩ := h
      exact free_scrub hf

theorem queue_pop_null (m : Mem) (q : Nat) (h : q = 0 ∨ (m.queues.cell q).size = 0) :
    queue_pop m q = some (RingBufferQueueOp_NULL, none, m) := by
  simp [queue_pop, h]

theorem queue_top_null (m : Mem) (q : Nat) (h : q = 0 ∨ (m.queues.cell q).size = 0) :
    queue_top m q = some (RingBufferQueueOp_NULL, none) := by
  simp [queue_top, h]

theorem queue_top_ok {m : Mem} {q p : Nat} {ps : List Nat} (hq : QueueRep m q (p :: ps)) :
    queue_top m q = some (RingBufferQueueOp_OK, some (m.nodes.cell p).node) := by
  obtain ⟨hq0, hch, _, hsz⟩ := hq
  have hs0 : (m.queues.cell q).size ≠ 0 := by
    rw [hsz]; simp; omega
  simp [queue_top, hq0, hs0, hch.1, hch.2.1]

/-- A queue whose struct and nodes are untouched keeps its representation and payloads. -/
theorem queueRep_frame {m m2 : Mem} {q q2 : Nat} {touched : Nat → Prop} {ps : List Nat}
    (hs : SameOutside m m2 q touched) (hq : QueueRep m q2 ps) (hne : q2 ≠ q)
    (hps : ∀ a ∈ ps, ¬ touched a) :
    QueueRep m2 q2 ps ∧ payloads m2 ps = payloads m ps ∧
      m2.queues.cell q2 = m.queues.cell q2 := by
  obtain ⟨_, _, _, _, _, hqc, hn⟩ := hs
  obtain ⟨hq0, hch, htl, hsz⟩ := hq
  refine ⟨⟨hq0, ?_, ?_, ?_⟩, ?_, hqc q2 hne⟩
  · rw [hqc q2 hne]
    exact chain_frame hch (fun a ha => hn a (hps a ha))
  · rw [hqc q2 hne]; exact htl
  · rw [hqc q2 hne]; exact hsz
  · apply List.map_congr_left
    intro a ha
    rw [(hn a (hps a ha)).1]

/-! ## Runs of calls on a well-formed queue -/

theorem queue_init_ok {m : Mem} {c q : Nat} {m0 : Mem}
    (h : queue_init m c = (RingBufferQueueOp_OK, q, m0)) :
    QueueRep m0 q [] ∧ q = c ∧ c ≠ 0 ∧ m.queues.live c = false ∧ m0.queues.live q = true ∧
      m0.nodes = m.nodes := by
  by_cases hc : c ≠ 0 ∧ m.queues.live c = false
  · simp only [queue_init, malloc_ok _ c hc.1 hc.2, if_neg hc.1, Prod.mk.injEq,
      true_and] at h
    obtain ⟨rfl, rfl⟩ := h
    refine ⟨⟨hc.1, ?_, ?_, ?_⟩, rfl, hc.1, hc.2, ?_, rfl⟩ <;> simp [Chain, Store.write]
  · have hc2 : c = 0 ∨ m.queues.live c = true := by
      by_cases h0 : c = 0
      · exact Or.inl h0
      · right
        cases hlc : m.queues.live c
        · exact absurd ⟨h0, hlc⟩ hc
        · rfl
    simp [queue_init, malloc_fail _ c hc2] at h

theorem keepsNext_of_scrub {s s2 : Store RingBufferQueueNode} (h : s2.scrub = s.scrub)
    (hk : KeepsNext s) : KeepsNext s2 := by
  unfold KeepsNext
  rw [h]
  exact hk

/-- Invariant of a run when the allocator leaves the `next` word of released nodes as it
was: the run does not fault, the queue stays well formed, and the values written by the OK
pops followed by the payloads still queued are the payloads queued at the start followed by
the payloads of the OK pushes. -/
theorem queue_run_spec : ∀ (calls : List QueueCall) {m : Mem} {q : Nat} {ps : List Nat},
    QueueRep m q ps → KeepsNext m.nodes →
    ∃ tr m2 ps2, queue_run m q calls = some (tr, m2) ∧ QueueRep m2 q ps2 ∧
      KeepsNext m2.nodes ∧
      okPopOut tr ++ (payloads m2 ps2).map some = (payloads m ps ++ okPushData tr).map some
  | [], m, q, ps, hq, hk => ⟨[], m, ps, rfl, hq, hk, by simp [okPopOut, okPushData]⟩
  | .push d c :: cs, m, q, ps, hq, hk => by
    by_cases hc : c ≠ 0 ∧ m.nodes.live c = false
    · obtain ⟨m1, hpush, hq1, hpl, _⟩ := queue_push_ok hq d c hc.1 hc.2
      obtain ⟨tr, m2, ps2, hrun, hq2, hk2, heq⟩ :=
        queue_run_spec cs hq1 (keepsNext_of_scrub (queue_push_scrub hpush) hk)
      refine ⟨⟨.push d c, RingBufferQueueOp_OK, none⟩ :: tr, m2, ps2, ?_, hq2, hk2, ?_⟩
      · simp [queue_run, queue_step, hpush, hrun]
      · simp only [okPopOut, okPushData]
        rw [heq, hpl]
        simp
    · have hc2 : c = 0 ∨ m.nodes.live c = true := by
        by_cases h0 : c = 0
        · exact Or.inl h0
        · right
          cases hlc : m.nodes.live c
          · exact absurd ⟨h0, hlc⟩ hc
          · rfl
      obtain ⟨tr, m2, ps2, hrun, hq2, hk2, heq⟩ := queue_run_spec cs hq hk
      refine ⟨⟨.push d c, RingBufferQueueOp_NOMEM, none⟩ :: tr, m2, ps2, ?_, hq2, hk2, ?_⟩
      · simp [queue_run, queue_step, queue_push_nomem m q d c hq.1 hc2, hrun]
      · simp only [okPopOut, okPushData]
        exact heq
  | .pop :: cs, m, q, ps, hq, hk => by
    cases ps with
    | nil =>
      obtain ⟨tr, m2, ps2, hrun, hq2, hk2, heq⟩ := queue_run_spec cs hq hk
      have hsz : (m.queues.cell q).size = 0 := by simpa using hq.2.2.2
      refine ⟨⟨.pop, RingBufferQueueOp_NULL, none⟩ :: tr, m2, ps2, ?_, hq2, hk2, ?_⟩
      · simp [queue_run, queue_step, queue_pop_null m q (Or.inr hsz), hrun]
      · simp only [okPopOut, okPushData]
        exact heq
    | cons p ps1 =>
      obtain ⟨m1, hpop, hq1, hpl, _⟩ := queue_pop_ok hq hk
      obtain ⟨tr, m2, ps2, hrun, hq2, hk2, heq⟩ :=
        queue_run_spec cs hq1 (keepsNext_of_scrub (queue_pop_scrub hpop) hk)
      refine ⟨⟨.pop, RingBufferQueueOp_OK, some (m.nodes.cell p).node⟩ :: tr, m2, ps2, ?_,
        hq2, hk2, ?_⟩
      · simp [queue_run, queue_step, hpop, hrun]
      · simp only [okPopOut, okPushData]
        rw [List.cons_append, heq, hpl]
        simp [payloads]
  | .top :: cs, m, q, ps, hq, hk => by
    obtain ⟨tr, m2, ps2, hrun, hq2, hk2, heq⟩ := queue_run_spec cs hq hk
    cases ps with
    | nil =>
      have hsz : (m.queues.cell q).size = 0 := by simpa using hq.2.2.2
      refine ⟨⟨.top, RingBufferQueueOp_NULL, none⟩ :: tr, m2, ps2, ?_, hq2, hk2, ?_⟩
      · simp [queue_run, queue_step, queue_top_null m q (Or.inr hsz), hrun]
      · simp only [okPopOut, okPushData]
        exact heq
    | cons p ps1 =>
      refine ⟨⟨.top, RingBufferQueueOp_OK, some (m.nodes.cell p).node⟩ :: tr, m2, ps2, ?_,
        hq2, hk2, ?_⟩
      · simp [queue_run, queue_step, queue_top_ok hq, hrun]
      · simp only [okPopOut, okPushData]
        exact heq

/-- The pop loop on a well-formed queue when the allocator leaves the `next` word of
released nodes as it was: with fuel for every node it returns the payloads in queue order
and leaves the queue empty. -/
theorem pop_until_empty_spec : ∀ (ps : List Nat) {m : Mem} {q : Nat} (fuel : Nat),
    QueueRep m q ps → KeepsNext m.nodes → ps.length ≤ fuel →
    ∃ m2, pop_until_empty fuel m q = some ((payloads m ps).map some, m2) ∧ QueueRep m2 q []
  | [], m, q, fuel, hq, _, _ => by
    have hsz : (m.queues.cell q).size = 0 := by simpa using hq.2.2.2
    refine ⟨m, ?_, hq⟩
    unfold pop_until_empty
    simp [hq.1, hsz, payloads]
  | p :: ps, m, q, 0, _, _, hf => by simp at hf
  | p :: ps, m, q, fuel + 1, hq, hk, hf => by
    obtain ⟨m1, hpop, hq1, hpl, _⟩ := queue_pop_ok hq hk
    obtain ⟨m2, hrun, hq2⟩ := pop_until_empty_spec ps fuel hq1
      (keepsNext_of_scrub (queue_pop_scrub hpop) hk) (by simpa using hf)
    have hs0 : (m.queues.cell q).size ≠ 0 := by
      rw [hq.2.2.2]; simp; omega
    rw [hpl] at hrun
    refine ⟨m2, ?_, hq2⟩
    unfold pop_until_empty
    simp [hq.1, hs0, hpop, hrun, payloads]

theorem queue_run_calls : ∀ (calls : List QueueCall) {m : Mem} {q : Nat}
    {tr : List QueueEvent} {m2 : Mem},
    queue_run m q calls = some (tr, m2) → tr.map QueueEvent.call = calls
  | [], m, q, tr, m2, h => by
    simp [queue_run] at h
    simp [← h.1]
  | c :: cs, m, q, tr, m2, h => by
    simp only [queue_run, Option.bind_eq_some, Option.map_eq_some'] at h
    obtain ⟨r, hstep, rs, hrun, heq⟩ := h
    have ih := @queue_run_calls cs r.2 q rs.1 rs.2 hrun
    have hcall : r.1.call = c := by
      cases c <;> simp only [queue_step, Option.map_eq_some'] at hstep <;>
        obtain ⟨_, _, rfl⟩ := hstep <;> rfl
    simp only [Prod.mk.injEq] at heq
    rw [← heq.1]
    simp [ih, hcall]

/-- Splitting a list of written values off the front of a list of payloads. -/
theorem split_popped (P : List (Option Nat)) (R X : List Nat)
    (h : P ++ R.map some = X.map some) :
    P = (X.take P.length).map some ∧ R = X.drop P.length ∧ P.length + R.length = X.length := by
  have hlen : P.length + R.length = X.length := by
    have := congrArg List.length h
    simpa using this
  have h1 : P = (X.take P.length).map some := by
    have := congrArg (List.take P.length) h
    rw [List.take_left' rfl] at this
    rw [List.map_take]
    exact this
  have h2 : R.map some = (X.drop P.length).map some := by
    have := congrArg (List.drop P.length) h
    rw [List.drop_left' rfl] at this
    rw [List.map_drop]
    exact this
  exact ⟨h1, List.map_injective_iff.mpr (Option.some_injective _) h2, hlen⟩

/-! ## Claims on the queue -/

/-- FIFO order when the allocator leaves the `next` word of released nodes as it was: on a
queue just set up by `queue_init`, any sequence of calls runs without fault, the k-th pop
that returns OK writes the payload of the k-th push that returned OK, and popping until the
size is 0 afterwards yields the remaining pushed payloads in push order and leaves the
queue with size 0 and null head and tail. -/
theorem fifo_order_link_kept (m : Mem) (c q : Nat) (m0 : Mem)
    (hinit : queue_init m c = (RingBufferQueueOp_OK, q, m0)) (hk : KeepsNext m0.nodes)
    (calls : List QueueCall) :
    ∃ tr m1, queue_run m0 q calls = some (tr, m1) ∧ tr.map QueueEvent.call = calls ∧
      okPopOut tr = ((okPushData tr).take (okPopOut tr).length).map some ∧
      (okPopOut tr).length ≤ (okPushData tr).length ∧
      ∀ fuel, (okPushData tr).length - (okPopOut tr).length ≤ fuel →
        ∃ m2, pop_until_empty fuel m1 q =
            some (((okPushData tr).drop (okPopOut tr).length).map some, m2) ∧
          (m2.queues.cell q).size = 0 ∧ (m2.queues.cell q).head = 0 ∧
          (m2.queues.cell q).tail = 0 := by
  obtain ⟨tr, m1, ps1, hrun, hq1, hk1, heq⟩ := queue_run_spec calls (queue_init_ok hinit).1 hk
  have hsp := split_popped (okPopOut tr) (payloads m1 ps1) (okPushData tr)
    (by simpa [payloads] using heq)
  refine ⟨tr, m1, hrun, queue_run_calls calls hrun, hsp.1, by omega, ?_⟩
  intro fuel hfuel
  have hlen : ps1.length = (payloads m1 ps1).length := by simp [payloads]
  obtain ⟨m2, hloop, hq2⟩ := pop_until_empty_spec ps1 fuel hq1 hk1 (by omega)
  refine ⟨m2, ?_, ?_, hq2.2.1, ?_⟩
  · rw [hloop, hsp.2.1]
  · simpa using hq2.2.2.2
  · simpa using hq2.2.2.1

/-- Size accounting when the allocator leaves the `next` word of released nodes as it was:
after any sequence of calls the `size` field is the number of pushes that returned OK minus
the number of pops that returned OK. -/
theorem size_accounting_link_kept (m : Mem) (c q : Nat) (m0 : Mem)
    (hinit : queue_init m c = (RingBufferQueueOp_OK, q, m0)) (hk : KeepsNext m0.nodes)
    (calls : List QueueCall) :
    ∃ tr m1, queue_run m0 q calls = some (tr, m1) ∧
      (m1.queues.cell q).size = ((okPushData tr).length : Int) - ((okPopOut tr).length : Int) := by
  obtain ⟨tr, m1, ps1, hrun, hq1, _, heq⟩ := queue_run_spec calls (queue_init_ok hinit).1 hk
  have hsp := split_popped (okPopOut tr) (payloads m1 ps1) (okPushData tr)
    (by simpa [payloads] using heq)
  refine ⟨tr, m1, hrun, ?_⟩
  have hlen : ps1.length = (payloads m1 ps1).length := by simp [payloads]
  rw [hq1.2.2.2]
  omega

/-- C1: `queue_pop` reads `q->head->next` from the node it has just freed.  With an
allocator that clears released blocks, on the queue `queue_init` produced, push 10, push 20,
pop, push 30, pop all return OK, and the two pops write 10 and 30: the second pop does not
return the second pushed payload, and 20 is never returned. -/
theorem C1_second_pop_skips_payload :
    queue_init Mem.clearing 1 = (RingBufferQueueOp_OK, 1, Mem.clearing_queue) ∧
    (queue_run Mem.clearing_queue 1 [.push 10 1, .push 20 2, .pop, .push 30 3, .pop]).map
        (fun r => (r.1.map (fun e => e.res), okPushData r.1, okPopOut r.1)) =
      some ([RingBufferQueueOp_OK, RingBufferQueueOp_OK, RingBufferQueueOp_OK,
          RingBufferQueueOp_OK, RingBufferQueueOp_OK],
        [10, 20, 30], [some 10, some 30]) := by
  refine ⟨rfl, ?_⟩
  decide

/-- C2: with an allocator that clears released blocks, on the queue `queue_init` produced,
push, push, pop leave size 1 with a null head (the link read from the freed node), and a
further pop dereferences that null head: the sequence push, push, pop, pop faults instead of
returning with size 0. -/
theorem C2_second_pop_faults :
    queue_init Mem.clearing 1 = (RingBufferQueueOp_OK, 1, Mem.clearing_queue) ∧
    (queue_run Mem.clearing_queue 1 [.push 10 1, .push 20 2, .pop]).map
        (fun r => (okPushData r.1, okPopOut r.1, (r.2.queues.cell 1).size)) =
      some ([10, 20], [some 10], 1) ∧
    (queue_run Mem.clearing_queue 1 [.push 10 1, .push 20 2, .pop, .pop]).isNone = true := by
  refine ⟨rfl, ?_, ?_⟩ <;> decide

/-- C3: on a queue whose size is 0, `queue_pop` and `queue_top` return a code other than OK
(namely `RingBufferQueueOp_NULL`), write nothing to `*data`, and `queue_pop` returns the
memory it was given, so size, head, tail and nodes are as before; `queue_top` has no memory
effect at all. -/
theorem C3_empty_pop_top (m : Mem) (q : Nat) (h : (m.queues.cell q).size = 0) :
    queue_pop m q = some (RingBufferQueueOp_NULL, none, m) ∧
      queue_top m q = some (RingBufferQueueOp_NULL, none) ∧
      RingBufferQueueOp_NULL ≠ RingBufferQueueOp_OK :=
  ⟨queue_pop_null m q (Or.inr h), queue_top_null m q (Or.inr h), by decide⟩

/-- C4: peek is non-removing.  On a well-formed non-empty queue, whatever the allocator
leaves in released blocks, `queue_top` returns OK and writes the payload of the first
(oldest) node, without any memory effect, and `queue_pop` on the same memory returns OK
with that same payload, taking one off the size. -/
theorem C4_top_then_pop (m : Mem) (q p : Nat) (ps : List Nat) (hq : QueueRep m q (p :: ps)) :
    (payloads m (p :: ps)).head? = some (m.nodes.cell p).node ∧
      queue_top m q = some (RingBufferQueueOp_OK, some (m.nodes.cell p).node) ∧
      ∃ m2, queue_pop m q = some (RingBufferQueueOp_OK, some (m.nodes.cell p).node, m2) ∧
        (m2.queues.cell q).size = (m.queues.cell q).size - 1 := by
  obtain ⟨m2, hpop, hsz, _⟩ := queue_pop_returns hq
  exact ⟨rfl, queue_top_ok hq, m2, hpop, hsz⟩

theorem C3_empty_pop_top_witness :
    (Mem.fresh_queue.queues.cell 1).size = 0 ∧
    queue_pop Mem.fresh_queue 1 = some (RingBufferQueueOp_NULL, none, Mem.fresh_queue) ∧
      queue_top Mem.fresh_queue 1 = some (RingBufferQueueOp_NULL, none) ∧
      RingBufferQueueOp_NULL ≠ RingBufferQueueOp_OK :=
  ⟨rfl, C3_empty_pop_top Mem.fresh_queue 1 rfl⟩

theorem two_nodes_rep : QueueRep Mem.two_nodes 1 [1, 2] := by
  simp [QueueRep, Chain, Mem.two_nodes, Mem.empty]

theorem C4_top_then_pop_witness :
    QueueRep Mem.two_nodes 1 [1, 2] ∧
    (payloads Mem.two_nodes [1, 2]).head? = some (Mem.two_nodes.nodes.cell 1).node ∧
      queue_top Mem.two_nodes 1 =
        some (RingBufferQueueOp_OK, some (Mem.two_nodes.nodes.cell 1).node) ∧
      ∃ m2, queue_pop Mem.two_nodes 1 =
          some (RingBufferQueueOp_OK, some (Mem.two_nodes.nodes.cell 1).node, m2) ∧
        (m2.queues.cell 1).size = (Mem.two_nodes.queues.cell 1).size - 1 :=
  ⟨two_nodes_rep, C4_top_then_pop Mem.two_nodes 1 1 [2] two_nodes_rep⟩

/-- C5: `queue_empty` returns `(bool)q->size`, the negation of what its name says: on the
queue just set up by `queue_init` (size 0) it returns false, and after one push that returned
OK (size 1) it returns true. -/
theorem C5_queue_empty_inverted :
    (Mem.fresh_queue.queues.cell 1).size = 0 ∧ queue_empty Mem.fresh_queue 1 = some false ∧
    ∃ m1, queue_push Mem.fresh_queue 1 7 1 = some (RingBufferQueueOp_OK, m1) ∧
      (m1.queues.cell 1).size = 1 ∧ queue_empty m1 1 = some true := by
  refine ⟨rfl, rfl, _, rfl, rfl, rfl⟩

/-- C6: `destroy_io_task` on an allocated task returns without fault; afterwards the task
is released exactly when its state was not `ONGOING` (so for `READY`, `SUCCESS` and
`FAILED`), and for an `ONGOING` task the whole memory, hence the task and each of its
fields, is as before and the task is still allocated. -/
theorem C6_destroy_io_task (m : Mem) (t : Nat) (ht : t ≠ 0) (hl : m.tasks.live t = true) :
    ∃ m2, destroy_io_task m t = some m2 ∧
      (m2.tasks.live t = false ↔ (m.tasks.cell t).state ≠ ONGOING) ∧
      ((m.tasks.cell t).state = READY ∨ (m.tasks.cell t).state = SUCCESS ∨
        (m.tasks.cell t).state = FAILED → m2.tasks.live t = false) ∧
      ((m.tasks.cell t).state = ONGOING →
        m2 = m ∧ m2.tasks.live t = true ∧ m2.tasks.cell t = m.tasks.cell t) := by
  by_cases hs : (m.tasks.cell t).state = ONGOING
  · refine ⟨m, by simp [destroy_io_task, ht, hs], ?_, ?_, fun _ => ⟨rfl, hl, rfl⟩⟩
    · simp [hs, hl]
    · simp [hs]
  · refine ⟨_, by simp [destroy_io_task, ht, hs, free_ok _ t ht hl]; rfl, ?_, ?_, ?_⟩
    · simp [hs]
    · intro _; simp
    · intro h; exact absurd h hs

theorem C6_destroy_io_task_witness :
    (1 : Nat) ≠ 0 ∧ (Mem.one_task ONGOING).tasks.live 1 = true ∧
    ∃ m2, destroy_io_task (Mem.one_task ONGOING) 1 = some m2 ∧
      (m2.tasks.live 1 = false ↔ ((Mem.one_task ONGOING).tasks.cell 1).state ≠ ONGOING) ∧
      (((Mem.one_task ONGOING).tasks.cell 1).state = READY ∨
        ((Mem.one_task ONGOING).tasks.cell 1).state = SUCCESS ∨
        ((Mem.one_task ONGOING).tasks.cell 1).state = FAILED → m2.tasks.live 1 = false) ∧
      (((Mem.one_task ONGOING).tasks.cell 1).state = ONGOING →
        m2 = Mem.one_task ONGOING ∧ m2.tasks.live 1 = true ∧
          m2.tasks.cell 1 = (Mem.one_task ONGOING).tasks.cell 1) :=
  ⟨by decide, rfl, C6_destroy_io_task (Mem.one_task ONGOING) 1 (by decide) rfl⟩

/-- C7: `make_io_task` never assigns `state`.  When the block the allocator hands out holds
stale bytes that read as `ONGOING`, the task it returns is `ONGOING`, not `READY`. -/
theorem C7_make_io_task_state_unset :
    (make_io_task Mem.stale_tasks RingBufferIOTask_WRITE 4096 128 1).1 = 1 ∧
    ((make_io_task Mem.stale_tasks RingBufferIOTask_WRITE 4096 128 1).2.tasks.cell 1).state =
      ONGOING ∧
    ((make_io_task Mem.stale_tasks RingBufferIOTask_WRITE 4096 128 1).2.tasks.cell 1).state ≠
      READY := by
  refine ⟨rfl, rfl, by decide⟩

/-! ## Submitting to an initialised controller -/

theorem ring_buffer_submit_eq (ty : RingBufferIOTaskType) (m : Mem) (ctrl : Nat) (size : Int)
    (data c_task c_node : Nat) :
    ring_buffer_submit ty m ctrl size data c_task c_node =
      submit_body ty m ctrl size c_task c_node := by
  cases ty <;> rfl

theorem make_io_task_ok (m : Mem) (ty : RingBufferIOTaskType) (offset size : Int) (c : Nat)
    (hc : c ≠ 0) (hl : m.tasks.live c = false) :
    make_io_task m ty offset size c =
      (c, { m with tasks :=
        ⟨Function.update m.tasks.cell c
            { m.tasks.cell c with offset := offset, size := size, type := ty },
          Function.update m.tasks.live c true, m.tasks.scrub⟩ }) := by
  simp [make_io_task, malloc_ok _ c hc hl, hc, Store.write]

theorem make_io_task_fail (m : Mem) (ty : RingBufferIOTaskType) (offset size : Int) (c : Nat)
    (hc : c = 0 ∨ m.tasks.live c = true) :
    make_io_task m ty offset size c = (0, m) := by
  simp [make_io_task, malloc_fail _ c hc]

theorem queueOpt_live {m : Mem} {q : Nat} {ps : List Nat} (h : QueueOpt m q ps) :
    ∀ a ∈ ps, m.nodes.live a = true := by
  intro a ha
  rcases h with ⟨_, rfl⟩ | h
  · simp at ha
  · exact (chain_mem h.2.1 a ha).2

theorem queueRep_congr {m m2 : Mem} {q : Nat} {ps : List Nat} (hn : m2.nodes = m.nodes)
    (hq : m2.queues = m.queues) (h : QueueRep m q ps) : QueueRep m2 q ps := by
  unfold QueueRep at *
  rw [hn, hq]
  exact h

theorem submit_fail_ne (o : Option Mem) (m2 : Mem) :
    o.map (fun m3 => ((1 : Int), m3)) ≠ some (0, m2) := by
  cases o <;> simp

/-- What a submit that returned 0 did: both allocations succeeded, the queue of the task
type was not null, the new node `c_node` was linked behind its nodes carrying the new task
`c_task`, the task got the ring's `total_size` as offset, and nothing else changed. -/
theorem submit_body_success {ty : RingBufferIOTaskType} {m m2 : Mem} {ctrl : Nat} {size : Int}
    {c_task c_node : Nat} {ps : List Nat} (hc : ctrl ≠ 0) (hr : (m.ctrls.cell ctrl).ring ≠ 0)
    (hq : QueueOpt m (queue_of ty (m.ctrls.cell ctrl)) ps)
    (h : submit_body ty m ctrl size c_task c_node = some (0, m2)) :
    (c_task ≠ 0 ∧ m.tasks.live c_task = false) ∧ (c_node ≠ 0 ∧ m.nodes.live c_node = false) ∧
      QueueRep m (queue_of ty (m.ctrls.cell ctrl)) ps ∧
      QueueRep m2 (queue_of ty (m.ctrls.cell ctrl)) (ps ++ [c_node]) ∧
      payloads m2 (ps ++ [c_node]) = payloads m ps ++ [c_task] ∧
      m2.ctrls = m.ctrls ∧ m2.rings = m.rings ∧ m2.pools = m.pools ∧
      m2.tasks = ⟨Function.update m.tasks.cell c_task
          { m.tasks.cell c_task with
            offset := (m.rings.cell (m.ctrls.cell ctrl).ring).total_size, size := size,
            type := ty },
        Function.update m.tasks.live c_task true, m.tasks.scrub⟩ ∧
      m2.queues.live = m.queues.live ∧
      (∀ q2, q2 ≠ queue_of ty (m.ctrls.cell ctrl) → m2.queues.cell q2 = m.queues.cell q2) ∧
      (∀ a, a ≠ c_node → a ∉ ps →
        m2.nodes.cell a = m.nodes.cell a ∧ m2.nodes.live a = m.nodes.live a) := by
  simp only [submit_body, if_neg hc, get_ring_buffer_size, if_neg hr, Option.some_bind] at h
  rcases choice_cases m.tasks c_task with hct | hct
  · obtain ⟨m1, hm1, hc1, hr1, hp1, hq1, hn1, ht1⟩ : ∃ m1,
        make_io_task m ty (m.rings.cell (m.ctrls.cell ctrl).ring).total_size size c_task =
          (c_task, m1) ∧ m1.ctrls = m.ctrls ∧ m1.rings = m.rings ∧ m1.pools = m.pools ∧
          m1.queues = m.queues ∧ m1.nodes = m.nodes ∧
          m1.tasks = ⟨Function.update m.tasks.cell c_task
              { m.tasks.cell c_task with
                offset := (m.rings.cell (m.ctrls.cell ctrl).ring).total_size, size := size,
                type := ty },
            Function.update m.tasks.live c_task true, m.tasks.scrub⟩ :=
      ⟨_, make_io_task_ok m ty _ size c_task hct.1 hct.2, rfl, rfl, rfl, rfl, rfl, rfl⟩
    rw [hm1] at h
    simp only [if_neg hct.1, hc1] at h
    rcases hq with ⟨hq0, _⟩ | hq
    · exfalso
      simp only [hq0, queue_push, if_true, Option.some_bind, ne_eq] at h
      rw [if_pos (by decide)] at h
      exact submit_fail_ne _ _ h
    · rcases choice_cases m.nodes c_node with hcn | hcn
      · obtain ⟨m3, hpush, hq3, hpl, hs1, hs2, hs3, hs4, hs5, hs6, hs7⟩ :=
          queue_push_ok (queueRep_congr hn1 hq1 hq) c_task c_node hcn.1 (by rw [hn1]; exact hcn.2)
        rw [hpush] at h
        simp only [Option.some_bind, ne_eq, not_true_eq_false, if_false, Option.some.injEq,
          Prod.mk.injEq, true_and] at h
        subst h
        refine ⟨hct, hcn, hq, hq3, ?_, hs1.trans hc1, hs2.trans hr1, hs3.trans hp1,
          hs4.trans ht1, by rw [hs5, hq1], ?_, ?_⟩
        · rw [hpl]
          simp [payloads, hn1]
        · intro q2 hq2
          rw [hs6 q2 hq2, hq1]
        · intro a hac hap
          have := hs7 a (fun hor => hor.elim hac hap)
          rw [hn1] at this
          exact this
      · exfalso
        rw [queue_push_nomem m1 _ _ _ hq.1 (by rw [hn1]; exact hcn)] at h
        simp only [Option.some_bind, ne_eq] at h
        rw [if_pos (by decide)] at h
        exact submit_fail_ne _ _ h
  · rw [make_io_task_fail m ty _ size c_task hct] at h
    simp at h

theorem payloads_snoc_eq {m m2 : Mem} {ps : List Nat} {c d : Nat}
    (h : payloads m2 (ps ++ [c]) = payloads m ps ++ [d]) :
    (∀ a ∈ ps, (m2.nodes.cell a).node = (m.nodes.cell a).node) ∧ (m2.nodes.cell c).node = d := by
  simp only [payloads, List.map_append, List.map_cons, List.map_nil] at h
  obtain ⟨h1, h2⟩ := List.append_inj h (by simp)
  refine ⟨fun a ha => ?_, by simpa using h2⟩
  exact List.map_inj_left.mp h1 a ha

theorem queueOpt_of_same {m m2 : Mem} {q : Nat} {ps : List Nat} (h : QueueOpt m q ps)
    (hqc : m2.queues.cell q = m.queues.cell q)
    (hn : ∀ a ∈ ps, m2.nodes.cell a = m.nodes.cell a ∧ m2.nodes.live a = m.nodes.live a) :
    QueueOpt m2 q ps := by
  rcases h with h | ⟨hq0, hch, htl, hsz⟩
  · exact Or.inl h
  · refine Or.inr ⟨hq0, ?_, ?_, ?_⟩
    · rw [hqc]; exact chain_frame hch hn
    · rw [hqc]; exact htl
    · rw [hqc]; exact hsz

/-- A submit that returned 0 keeps the controller initialised, with the new node behind the
nodes of its own queue, and keeps the other queues and every task already queued. -/
theorem submit_body_ctrl {ty : RingBufferIOTaskType} {m m2 : Mem} {ctrl : Nat} {size : Int}
    {c_task c_node : Nat} {L : RingBufferIOTaskType → List Nat} (hC : CtrlRep m ctrl L)
    (h : submit_body ty m ctrl size c_task c_node = some (0, m2)) :
    CtrlRep m2 ctrl (Function.update L ty (L ty ++ [c_node])) ∧
      (∀ ty2, ty2 ≠ ty → QueueKept m m2 (queue_of ty2 (m.ctrls.cell ctrl)) (L ty2)) ∧
      (∀ a ∈ L ty, (m2.nodes.cell a).node = (m.nodes.cell a).node ∧
        m2.tasks.cell (m.nodes.cell a).node = m.tasks.cell (m.nodes.cell a).node) := by
  obtain ⟨hc, hr, hqs, hdq, hdl, htl⟩ := hC
  obtain ⟨hct, hcn, hq, hq2, hpl, hs1, hs2, hs3, hs4, hs5, hs6, hs7⟩ :=
    submit_body_success hc hr (hqs ty) h
  obtain ⟨hpl1, hpl2⟩ := payloads_snoc_eq hpl
  have hlive : ∀ ty2, ∀ a ∈ L ty2, a ≠ c_node := by
    intro ty2 a ha hac
    have := queueOpt_live (hqs ty2) a ha
    rw [hac, hcn.2] at this
    exact Bool.noConfusion this
  have htask : ∀ ty2, ∀ a ∈ L ty2,
      m2.tasks.cell (m.nodes.cell a).node = m.tasks.cell (m.nodes.cell a).node ∧
      m2.tasks.live (m.nodes.cell a).node = true := by
    intro ty2 a ha
    have hl := htl ty2 a ha
    have hne : (m.nodes.cell a).node ≠ c_task := by
      intro heq
      rw [heq, hct.2] at hl
      exact Bool.noConfusion hl
    rw [hs4]
    simp [Function.update_noteq hne, hl]
  have hnode : ∀ ty2, ty2 ≠ ty → ∀ a ∈ L ty2,
      m2.nodes.cell a = m.nodes.cell a ∧ m2.nodes.live a = m.nodes.live a := by
    intro ty2 hne a ha
    exact hs7 a (hlive ty2 a ha) (hdl ty2 ty hne a ha)
  have hqne : ∀ ty2, ty2 ≠ ty →
      queue_of ty2 (m.ctrls.cell ctrl) ≠ queue_of ty (m.ctrls.cell ctrl) := by
    intro ty2 hne heq
    exact hq.1 (hdq ty ty2 (Ne.symm hne) heq.symm)
  have hkept : ∀ ty2, ty2 ≠ ty → QueueKept m m2 (queue_of ty2 (m.ctrls.cell ctrl)) (L ty2) := by
    intro ty2 hne
    refine ⟨hs6 _ (hqne ty2 hne), queueOpt_of_same (hqs ty2) (hs6 _ (hqne ty2 hne))
      (hnode ty2 hne), ?_, ?_⟩
    · apply List.map_congr_left
      intro a ha
      rw [(hnode ty2 hne a ha).1]
    · intro a ha
      exact ⟨(hnode ty2 hne a ha).1, (htask ty2 a ha).1⟩
  refine ⟨⟨hc, by rw [hs1]; exact hr, ?_, ?_, ?_, ?_⟩, hkept, ?_⟩
  · intro ty2
    rw [hs1]
    by_cases hne : ty2 = ty
    · subst hne
      simp only [Function.update_same]
      exact Or.inr hq2
    · simp only [Function.update_noteq hne]
      exact (hkept ty2 hne).2.1
  · rw [hs1]; exact hdq
  · intro ty1 ty2 hne a ha hb
    by_cases h1 : ty1 = ty
    · subst h1
      have h2 : ty2 ≠ ty1 := Ne.symm hne
      simp only [Function.update_same] at ha
      simp only [Function.update_noteq h2] at hb
      rcases List.mem_append.mp ha with ha | ha
      · exact hdl ty1 ty2 hne a ha hb
      · simp only [List.mem_singleton] at ha
        exact hlive ty2 a hb ha
    · simp only [Function.update_noteq h1] at ha
      by_cases h2 : ty2 = ty
      · subst h2
        simp only [Function.update_same] at hb
        rcases List.mem_append.mp hb with hb | hb
        · exact hdl ty1 ty2 hne a ha hb
        · simp only [List.mem_singleton] at hb
          exact hlive ty1 a ha hb
      · simp only [Function.update_noteq h2] at hb
        exact hdl ty1 ty2 hne a ha hb
  · intro ty2 a ha
    by_cases hne : ty2 = ty
    · subst hne
      simp only [Function.update_same] at ha
      rcases List.mem_append.mp ha with ha | ha
      · rw [hpl1 a ha]
        exact (htask ty2 a ha).2
      · simp only [List.mem_singleton] at ha
        rw [ha, hpl2, hs4]
        simp
    · simp only [Function.update_noteq hne] at ha
      rw [(hnode ty2 hne a ha).1]
      exact (htask ty2 a ha).2
  · intro a ha
    exact ⟨hpl1 a ha, (htask ty a ha).1⟩

/-- On a non-null ring and a well-formed queue a submit whose two allocations succeed
returns 0. -/
theorem submit_body_ok {ty : RingBufferIOTaskType} {m : Mem} {ctrl : Nat} (size : Int)
    {c_task c_node : Nat} {ps : List Nat} (hc : ctrl ≠ 0) (hr : (m.ctrls.cell ctrl).ring ≠ 0)
    (hq : QueueRep m (queue_of ty (m.ctrls.cell ctrl)) ps)
    (hct : c_task ≠ 0 ∧ m.tasks.live c_task = false)
    (hcn : c_node ≠ 0 ∧ m.nodes.live c_node = false) :
    ∃ m2, submit_body ty m ctrl size c_task c_node = some (0, m2) := by
  simp only [submit_body, if_neg hc, get_ring_buffer_size, if_neg hr, Option.some_bind]
  rw [make_io_task_ok m ty _ size c_task hct.1 hct.2]
  simp only [if_neg hct.1]
  have hq1 : QueueRep
      { m with tasks :=
        ⟨Function.update m.tasks.cell c_task
            { m.tasks.cell c_task with
              offset := (m.rings.cell (m.ctrls.cell ctrl).ring).total_size, size := size,
              type := ty },
          Function.update m.tasks.live c_task true, m.tasks.scrub⟩ }
      (queue_of ty (m.ctrls.cell ctrl)) ps := queueRep_congr rfl rfl hq
  obtain ⟨m3, hpush, _⟩ := queue_push_ok hq1 c_task c_node hcn.1 hcn.2
  rw [hpush]
  exact ⟨m3, by simp⟩

theorem queue_init_cases (m : Mem) (c : Nat) :
    queue_init m c = (RingBufferQueueOp_NOMEM, 0, m) ∨
      (c ≠ 0 ∧ m.queues.live c = false ∧
        queue_init m c = (RingBufferQueueOp_OK, c,
          { m with queues :=
            ⟨Function.update m.queues.cell c ⟨0, 0, 0⟩, Function.update m.queues.live c true,
              m.queues.scrub⟩ })) := by
  rcases choice_cases m.queues c with hc | hc
  · right
    refine ⟨hc.1, hc.2, ?_⟩
    simp [queue_init, malloc_ok _ c hc.1 hc.2, hc.1, Store.write]
  · left
    simp [queue_init, malloc_fail _ c hc]

/-- One `queue_init` call: only the queue store changes; the pointer it yields is null or a
block that was free and now holds an empty queue; queues allocated before are untouched. -/
theorem queue_init_step {m m2 : Mem} {c q : Nat} {r : RingBufferQueueOpRes}
    (h : queue_init m c = (r, q, m2)) :
    (m2.ctrls = m.ctrls ∧ m2.rings = m.rings ∧ m2.pools = m.pools ∧ m2.nodes = m.nodes ∧
      m2.tasks = m.tasks) ∧
    (q = 0 ∨ (q ≠ 0 ∧ m.queues.live q = false ∧ m2.queues.live q = true ∧
      m2.queues.cell q = ⟨0, 0, 0⟩)) ∧
    (∀ a, m.queues.live a = true →
      m2.queues.live a = true ∧ m2.queues.cell a = m.queues.cell a) := by
  rcases queue_init_cases m c with h0 | ⟨hc0, hcl, h1⟩
  · rw [h0] at h
    simp only [Prod.mk.injEq] at h
    obtain ⟨_, rfl, rfl⟩ := h
    exact ⟨⟨rfl, rfl, rfl, rfl, rfl⟩, Or.inl rfl, fun a ha => ⟨ha, rfl⟩⟩
  · rw [h1] at h
    simp only [Prod.mk.injEq] at h
    obtain ⟨_, rfl, rfl⟩ := h
    refine ⟨⟨rfl, rfl, rfl, rfl, rfl⟩, Or.inr ⟨hc0, hcl, by simp, by simp⟩, ?_⟩
    intro a ha
    have hac : a ≠ c := by
      intro heq
      rw [heq, hcl] at ha
      exact Bool.noConfusion ha
    simp [Function.update_noteq hac, ha]

/-- What `init_ringbuffer` leaves when it returns OK: a controller whose ring has zero
cursors and the default size, and three queue pointers each null or an empty queue, any two
non-null ones distinct.  Nodes and tasks are not touched. -/
theorem init_ringbuffer_ok {m m0 : Mem} {c_ctrl c_ring c_pool c_wr c_rd c_fl ctrl : Nat}
    (h : init_ringbuffer m c_ctrl c_ring c_pool c_wr c_rd c_fl =
      some (RingBufferInit_OK, ctrl, m0)) :
    ∃ ring wr rd fl, m0.ctrls.cell ctrl = ⟨ring, wr, rd, fl⟩ ∧ ctrl ≠ 0 ∧ ring ≠ 0 ∧
      ((m0.rings.cell ring).head = 0 ∧ (m0.rings.cell ring).tail = 0 ∧
        (m0.rings.cell ring).total_size = DEFAULT_RINGBUFFER_POOL_SIZE) ∧
      (wr = 0 ∨ (wr ≠ 0 ∧ m0.queues.cell wr = ⟨0, 0, 0⟩)) ∧
      (rd = 0 ∨ (rd ≠ 0 ∧ m0.queues.cell rd = ⟨0, 0, 0⟩)) ∧
      (fl = 0 ∨ (fl ≠ 0 ∧ m0.queues.cell fl = ⟨0, 0, 0⟩)) ∧
      (wr ≠ 0 → rd ≠ wr ∧ fl ≠ wr) ∧ (rd ≠ 0 → fl ≠ rd) ∧
      m0.nodes = m.nodes ∧ m0.tasks = m.tasks := by
  unfold init_ringbuffer at h
  rcases choice_cases m.ctrls c_ctrl with hcc | hcc
  · rw [malloc_ok _ _ hcc.1 hcc.2] at h
    simp only [if_neg hcc.1] at h
    rcases choice_cases m.rings c_ring with hcr | hcr
    · rw [malloc_ok _ _ hcr.1 hcr.2] at h
      simp only [if_neg hcr.1] at h
      generalize hq1 : queue_init _ c_wr = r1 at h
      obtain ⟨res1, wr, m5⟩ := r1
      simp only [] at h
      generalize hq2 : queue_init _ c_rd = r2 at h
      obtain ⟨res2, rd, m6⟩ := r2
      simp only [] at h
      generalize hq3 : queue_init _ c_fl = r3 at h
      obtain ⟨res3, fl, m7⟩ := r3
      simp only [Option.some.injEq, Prod.mk.injEq, true_and] at h
      obtain ⟨rfl, rfl⟩ := h
      obtain ⟨⟨a1, a2, _, a4, a5⟩, b1, _⟩ := queue_init_step hq1
      obtain ⟨⟨d1, d2, _, d4, d5⟩, e1, f1⟩ := queue_init_step hq2
      obtain ⟨⟨g1, g2, _, g4, g5⟩, i1, j1⟩ := queue_init_step hq3
      simp only [] at a1 a2 a4 a5 d1 d2 d4 d5 g1 g2 g4 g5 e1 f1 i1 j1
      have hw : wr = 0 ∨ (wr ≠ 0 ∧ m7.queues.live wr = true ∧ m7.queues.cell wr = ⟨0, 0, 0⟩) := by
        rcases b1 with b1 | ⟨b0, _, bl, bc⟩
        · exact Or.inl b1
        · have h6 := f1 wr bl
          have h7 := j1 wr h6.1
          exact Or.inr ⟨b0, h7.1, by rw [h7.2, h6.2, bc]⟩
      have hr : rd = 0 ∨ (rd ≠ 0 ∧ m7.queues.live rd = true ∧ m7.queues.cell rd = ⟨0, 0, 0⟩) := by
        rcases e1 with e1 | ⟨e0, _, el, ec⟩
        · exact Or.inl e1
        · have h7 := j1 rd el
          exact Or.inr ⟨e0, h7.1, by rw [h7.2, ec]⟩
      have hf : fl = 0 ∨ (fl ≠ 0 ∧ m7.queues.cell fl = ⟨0, 0, 0⟩) := by
        rcases i1 with i1 | ⟨i0, _, _, ic⟩
        · exact Or.inl i1
        · exact Or.inr ⟨i0, ic⟩
      have hwr : wr ≠ 0 → rd ≠ wr ∧ fl ≠ wr := by
        intro hw0
        rcases b1 with b1 | ⟨_, _, bl, _⟩
        · exact absurd b1 hw0
        · constructor
          · intro heq
            rcases e1 with e1 | ⟨_, el, _⟩
            · exact hw0 (heq ▸ e1)
            · rw [heq, bl] at el
              exact Bool.noConfusion el
          · intro heq
            rcases i1 with i1 | ⟨_, il, _⟩
            · exact hw0 (heq ▸ i1)
            · rw [heq, (f1 wr bl).1] at il
              exact Bool.noConfusion il
      have hrf : rd ≠ 0 → fl ≠ rd := by
        intro hr0 heq
        rcases e1 with e1 | ⟨_, _, el, _⟩
        · exact hr0 e1
        · rcases i1 with i1 | ⟨_, il, _⟩
          · exact hr0 (heq ▸ i1)
          · rw [heq, el] at il
            exact Bool.noConfusion il
      refine ⟨c_ring, wr, rd, fl, ?_, hcc.1, hcr.1, ?_, ?_, ?_, hf, hwr, hrf, ?_, ?_⟩
      · simp [Store.write, g1, d1, a1]
      · simp [Store.write, g2, d2, a2]
      · rcases hw with hw | ⟨h1, _, h3⟩
        · exact Or.inl hw
        · exact Or.inr ⟨h1, h3⟩
      · rcases hr with hr | ⟨h1, _, h3⟩
        · exact Or.inl hr
        · exact Or.inr ⟨h1, h3⟩
      · simp [g4, d4, a4]
      · simp [g5, d5, a5]
    · exfalso
      rw [malloc_fail _ _ hcr] at h
      simp only [if_true] at h
      generalize Store.free _ c_ctrl = o at h
      cases o <;> simp at h
  · rw [malloc_fail _ _ hcc] at h
    simp at h

theorem init_ringbuffer_ctrlRep {m m0 : Mem} {c_ctrl c_ring c_pool c_wr c_rd c_fl ctrl : Nat}
    (h : init_ringbuffer m c_ctrl c_ring c_pool c_wr c_rd c_fl =
      some (RingBufferInit_OK, ctrl, m0)) :
    CtrlRep m0 ctrl (fun _ => []) := by
  obtain ⟨ring, wr, rd, fl, hcell, hc0, hr0, _, hw, hr, hf, hwr, hrf, _, _⟩ :=
    init_ringbuffer_ok h
  have hrep : ∀ q, (q = 0 ∨ (q ≠ 0 ∧ m0.queues.cell q = ⟨0, 0, 0⟩)) → QueueOpt m0 q [] := by
    intro q hq
    rcases hq with hq | ⟨hq0, hqc⟩
    · exact Or.inl ⟨hq, rfl⟩
    · exact Or.inr ⟨hq0, by rw [hqc]; rfl, by rw [hqc]; rfl, by rw [hqc]; rfl⟩
  refine ⟨hc0, by rw [hcell]; exact hr0, ?_, ?_, ?_, ?_⟩
  · intro ty
    rw [hcell]
    cases ty
    · exact hrep wr hw
    · exact hrep rd hr
    · exact hrep fl hf
  · intro ty ty2 hne heq
    rw [hcell] at heq ⊢
    by_contra h0
    cases ty <;> cases ty2 <;> simp only [queue_of, ne_eq, not_true_eq_false] at hne heq h0
    · exact (hwr h0).1 heq.symm
    · exact (hwr h0).2 heq.symm
    · exact (hwr (heq ▸ h0)).1 heq
    · exact hrf h0 heq.symm
    · exact (hwr (heq ▸ h0)).2 heq
    · exact hrf (heq ▸ h0) heq
  · intro ty ty2 _ a ha
    simp at ha
  · intro ty a ha
    simp at ha

theorem queueOpt_nonnull {m : Mem} {q : Nat} {ps : List Nat} (h : QueueOpt m q ps)
    (hq : q ≠ 0 ∨ ps ≠ []) : QueueRep m q ps := by
  rcases h with ⟨h0, hnil⟩ | h
  · rcases hq with hq | hq
    · exact absurd h0 hq
    · exact absurd hnil hq
  · exact h

theorem fresh_ctrl_init :
    init_ringbuffer Mem.empty 1 1 1 1 2 3 = some (RingBufferInit_OK, 1, Mem.fresh_ctrl) := rfl

theorem fresh_ctrl_rep : CtrlRep Mem.fresh_ctrl 1 (fun _ => []) :=
  init_ringbuffer_ctrlRep fresh_ctrl_init

/-! ## Claims on the controller -/

/-- C8: on an initialised controller, a submit that returns 0 (`ring_buffer_write`,
`ring_buffer_read` or `ring_buffer_flush`, selected by `ty`) leaves the controller struct as
it was, increases the size of the queue of its own type by one, and keeps each of the other
two queues: same size, head and tail, same nodes, same payloads, same tasks. -/
theorem C8_submit_own_queue_only (m : Mem) (ctrl : Nat) (L : RingBufferIOTaskType → List Nat)
    (hC : CtrlRep m ctrl L) (ty : RingBufferIOTaskType) (size : Int)
    (data c_task c_node : Nat) (m2 : Mem)
    (h : ring_buffer_submit ty m ctrl size data c_task c_node = some (0, m2)) :
    m2.ctrls.cell ctrl = m.ctrls.cell ctrl ∧
      (m2.queues.cell (queue_of ty (m.ctrls.cell ctrl))).size =
        (m.queues.cell (queue_of ty (m.ctrls.cell ctrl))).size + 1 ∧
      ∀ ty2, ty2 ≠ ty → QueueKept m m2 (queue_of ty2 (m.ctrls.cell ctrl)) (L ty2) := by
  rw [ring_buffer_submit_eq] at h
  obtain ⟨_, _, hq, hq2, _, hs1, _⟩ := submit_body_success hC.1 hC.2.1 (hC.2.2.1 ty) h
  refine ⟨by rw [hs1], ?_, (submit_body_ctrl hC h).2.1⟩
  rw [hq2.2.2.2, hq.2.2.2]
  simp

theorem C8_submit_own_queue_only_witness :
    CtrlRep Mem.fresh_ctrl 1 (fun _ => []) ∧
    ring_buffer_submit RingBufferIOTask_WRITE Mem.fresh_ctrl 1 128 0 1 1 =
      some (0, Mem.after_write) ∧
    Mem.after_write.ctrls.cell 1 = Mem.fresh_ctrl.ctrls.cell 1 ∧
      (Mem.after_write.queues.cell
          (queue_of RingBufferIOTask_WRITE (Mem.fresh_ctrl.ctrls.cell 1))).size =
        (Mem.fresh_ctrl.queues.cell
          (queue_of RingBufferIOTask_WRITE (Mem.fresh_ctrl.ctrls.cell 1))).size + 1 ∧
      ∀ ty2, ty2 ≠ RingBufferIOTask_WRITE →
        QueueKept Mem.fresh_ctrl Mem.after_write (queue_of ty2 (Mem.fresh_ctrl.ctrls.cell 1))
          ((fun _ => []) ty2) :=
  ⟨fresh_ctrl_rep, rfl,
    C8_submit_own_queue_only Mem.fresh_ctrl 1 (fun _ => [])
      (fresh_ctrl_rep) RingBufferIOTask_WRITE 128 0 1 1
      Mem.after_write rfl⟩

/-- C9: on an initialised controller, after a submit of size `size` that returned 0 the
tail of the queue of its type is a new node whose payload is a task of that type, of size
`size`, and with the offset `get_ring_buffer_size` returns for the ring at the call; the
nodes queued before are still queued ahead of it, in the same order, with the same payloads
and tasks. -/
theorem C9_submit_task_at_tail (m : Mem) (ctrl : Nat) (L : RingBufferIOTaskType → List Nat)
    (hC : CtrlRep m ctrl L) (ty : RingBufferIOTaskType) (size : Int)
    (data c_task c_node : Nat) (m2 : Mem)
    (h : ring_buffer_submit ty m ctrl size data c_task c_node = some (0, m2)) :
    QueueRep m (queue_of ty (m.ctrls.cell ctrl)) (L ty) ∧
      QueueRep m2 (queue_of ty (m.ctrls.cell ctrl)) (L ty ++ [c_node]) ∧
      (m2.queues.cell (queue_of ty (m.ctrls.cell ctrl))).tail = c_node ∧
      (m2.nodes.cell c_node).node = c_task ∧
      (m2.tasks.cell c_task).type = ty ∧ (m2.tasks.cell c_task).size = size ∧
      get_ring_buffer_size m (m.ctrls.cell ctrl).ring = some (m2.tasks.cell c_task).offset ∧
      payloads m2 (L ty ++ [c_node]) = payloads m (L ty) ++ [c_task] ∧
      ∀ a ∈ L ty, (m2.nodes.cell a).node = (m.nodes.cell a).node ∧
        m2.tasks.cell (m.nodes.cell a).node = m.tasks.cell (m.nodes.cell a).node := by
  rw [ring_buffer_submit_eq] at h
  obtain ⟨_, _, hq, hq2, hpl, _, _, _, hs4, _⟩ :=
    submit_body_success hC.1 hC.2.1 (hC.2.2.1 ty) h
  refine ⟨hq, hq2, ?_, (payloads_snoc_eq hpl).2, ?_, ?_, ?_, hpl, (submit_body_ctrl hC h).2.2⟩
  · rw [hq2.2.2.1, List.getLast?_concat]; rfl
  · rw [hs4]; simp
  · rw [hs4]; simp
  · rw [hs4]; simp [get_ring_buffer_size, hC.2.1]

theorem C9_submit_task_at_tail_witness :
    CtrlRep Mem.fresh_ctrl 1 (fun _ => []) ∧
    ring_buffer_submit RingBufferIOTask_READ Mem.fresh_ctrl 1 64 0 5 6 =
      some (0, Mem.after_read) ∧
    QueueRep Mem.fresh_ctrl (queue_of RingBufferIOTask_READ (Mem.fresh_ctrl.ctrls.cell 1)) [] ∧
      QueueRep Mem.after_read (queue_of RingBufferIOTask_READ (Mem.fresh_ctrl.ctrls.cell 1))
        ([] ++ [6]) ∧
      (Mem.after_read.queues.cell
        (queue_of RingBufferIOTask_READ (Mem.fresh_ctrl.ctrls.cell 1))).tail = 6 ∧
      (Mem.after_read.nodes.cell 6).node = 5 ∧
      (Mem.after_read.tasks.cell 5).type = RingBufferIOTask_READ ∧
      (Mem.after_read.tasks.cell 5).size = 64 ∧
      get_ring_buffer_size Mem.fresh_ctrl (Mem.fresh_ctrl.ctrls.cell 1).ring =
        some (Mem.after_read.tasks.cell 5).offset ∧
      payloads Mem.after_read ([] ++ [6]) = payloads Mem.fresh_ctrl [] ++ [5] ∧
      ∀ a ∈ ([] : List Nat), (Mem.after_read.nodes.cell a).node =
          (Mem.fresh_ctrl.nodes.cell a).node ∧
        Mem.after_read.tasks.cell (Mem.fresh_ctrl.nodes.cell a).node =
          Mem.fresh_ctrl.tasks.cell (Mem.fresh_ctrl.nodes.cell a).node :=
  ⟨fresh_ctrl_rep, rfl,
    C9_submit_task_at_tail Mem.fresh_ctrl 1 (fun _ => [])
      (fresh_ctrl_rep) RingBufferIOTask_READ 64 0 5 6
      Mem.after_read rfl⟩

/-- C10: on the controller `init_ringbuffer` has just produced (its three queue allocations
having succeeded), `ring_buffer_write` with size `a` followed by `ring_buffer_read` with size
`b`, the task and node allocations succeeding, both return 0; afterwards the write queue and
the read queue have size 1, the flush queue has size 0, the queued tasks are the two new
tasks (of type WRITE and size `a`, of type READ and size `b`), both record the same offset
(the ring's `total_size`, 4096), and the ring store, hence head, tail and `total_size`, is
as `init_ringbuffer` left it. -/
theorem C10_write_then_read (m : Mem) (c_ctrl c_ring c_pool c_wr c_rd c_fl ctrl : Nat)
    (m0 : Mem)
    (hinit : init_ringbuffer m c_ctrl c_ring c_pool c_wr c_rd c_fl =
      some (RingBufferInit_OK, ctrl, m0))
    (hwr : (m0.ctrls.cell ctrl).wr_queue ≠ 0) (hrd : (m0.ctrls.cell ctrl).rd_queue ≠ 0)
    (hfl : (m0.ctrls.cell ctrl).fl_queue ≠ 0)
    (a b : Int) (data1 data2 t1 n1 t2 n2 : Nat)
    (ht1 : t1 ≠ 0 ∧ m0.tasks.live t1 = false) (hn1 : n1 ≠ 0 ∧ m0.nodes.live n1 = false)
    (ht2 : t2 ≠ 0 ∧ t2 ≠ t1 ∧ m0.tasks.live t2 = false)
    (hn2 : n2 ≠ 0 ∧ n2 ≠ n1 ∧ m0.nodes.live n2 = false) :
    ∃ m1 m2, ring_buffer_write m0 ctrl a data1 t1 n1 = some (0, m1) ∧
      ring_buffer_read m1 ctrl b data2 t2 n2 = some (0, m2) ∧
      (m2.queues.cell (m2.ctrls.cell ctrl).wr_queue).size = 1 ∧
      (m2.queues.cell (m2.ctrls.cell ctrl).rd_queue).size = 1 ∧
      (m2.queues.cell (m2.ctrls.cell ctrl).fl_queue).size = 0 ∧
      queue_top m2 (m2.ctrls.cell ctrl).wr_queue = some (RingBufferQueueOp_OK, some t1) ∧
      queue_top m2 (m2.ctrls.cell ctrl).rd_queue = some (RingBufferQueueOp_OK, some t2) ∧
      ((m2.tasks.cell t1).type = RingBufferIOTask_WRITE ∧ (m2.tasks.cell t1).size = a) ∧
      ((m2.tasks.cell t2).type = RingBufferIOTask_READ ∧ (m2.tasks.cell t2).size = b) ∧
      (m2.tasks.cell t1).offset = (m2.tasks.cell t2).offset ∧
      (m2.tasks.cell t1).offset = 4096 ∧
      m1.rings = m0.rings ∧ m2.rings = m0.rings := by
  have hC0 := init_ringbuffer_ctrlRep hinit
  obtain ⟨ring, wr, rd, fl, hcell, _, _, ⟨_, _, hts⟩, _⟩ := init_ringbuffer_ok hinit
  have hring : (m0.ctrls.cell ctrl).ring = ring := by rw [hcell]
  -- the write
  have hqw0 : QueueRep m0 (queue_of RingBufferIOTask_WRITE (m0.ctrls.cell ctrl)) [] :=
    queueOpt_nonnull (hC0.2.2.1 RingBufferIOTask_WRITE) (Or.inl hwr)
  obtain ⟨m1, h1⟩ := submit_body_ok a hC0.1 hC0.2.1 hqw0 ht1 hn1
  obtain ⟨hC1, hk1, _⟩ := submit_body_ctrl hC0 h1
  obtain ⟨_, _, _, hqw1, hpl1, hc1, hr1, _, htk1, _, _, hnd1⟩ :=
    submit_body_success hC0.1 hC0.2.1 (hC0.2.2.1 RingBufferIOTask_WRITE) h1
  have hcc1 : m1.ctrls.cell ctrl = m0.ctrls.cell ctrl := by rw [hc1]
  -- the read
  have hL1r : Function.update (fun _ => ([] : List Nat)) RingBufferIOTask_WRITE ([] ++ [n1])
      RingBufferIOTask_READ = [] := by
    rw [Function.update_noteq (by decide)]
  have hqr1 : QueueRep m1 (queue_of RingBufferIOTask_READ (m1.ctrls.cell ctrl)) [] := by
    have := hC1.2.2.1 RingBufferIOTask_READ
    rw [hL1r] at this
    exact queueOpt_nonnull this (Or.inl (by rw [hcc1]; exact hrd))
  have ht2b : t2 ≠ 0 ∧ m1.tasks.live t2 = false := by
    refine ⟨ht2.1, ?_⟩
    rw [htk1]
    simp [Function.update_noteq ht2.2.1, ht2.2.2]
  have hn2b : n2 ≠ 0 ∧ m1.nodes.live n2 = false := by
    refine ⟨hn2.1, ?_⟩
    rw [(hnd1 n2 hn2.2.1 (by simp)).2]
    exact hn2.2.2
  obtain ⟨m2, h2⟩ := submit_body_ok b hC1.1 hC1.2.1 hqr1 ht2b hn2b
  obtain ⟨_, hk2, _⟩ := submit_body_ctrl hC1 h2
  obtain ⟨_, _, _, hqr2, hpl2, hc2, hr2, _, htk2, _, _, _⟩ :=
    submit_body_success hC1.1 hC1.2.1 (Or.inr hqr1) h2
  have hcc2 : m2.ctrls.cell ctrl = m0.ctrls.cell ctrl := by rw [hc2, hc1]
  -- the write queue and the flush queue are kept by the read
  obtain ⟨kw1, kw2, _, kw4⟩ := hk2 RingBufferIOTask_WRITE (by decide)
  obtain ⟨kf1, _, _, _⟩ := hk2 RingBufferIOTask_FLUSH (by decide)
  obtain ⟨kf0, _, _, _⟩ := hk1 RingBufferIOTask_FLUSH (by decide)
  rw [Function.update_same] at kw2 kw4
  have hqw2 : QueueRep m2 (queue_of RingBufferIOTask_WRITE (m1.ctrls.cell ctrl)) ([] ++ [n1]) :=
    queueOpt_nonnull kw2 (Or.inr (by simp))
  have hqf0 : QueueRep m0 (queue_of RingBufferIOTask_FLUSH (m0.ctrls.cell ctrl)) [] :=
    queueOpt_nonnull (hC0.2.2.1 RingBufferIOTask_FLUSH) (Or.inl hfl)
  have hnode1 : (m1.nodes.cell n1).node = t1 := (payloads_snoc_eq hpl1).2
  have hnode2 : (m2.nodes.cell n2).node = t2 := (payloads_snoc_eq hpl2).2
  have hkw := kw4 n1 (by simp)
  rw [hnode1] at hkw
  have htask1 : m2.tasks.cell t1 = { m0.tasks.cell t1 with
      offset := (m0.rings.cell (m0.ctrls.cell ctrl).ring).total_size, size := a,
      type := RingBufferIOTask_WRITE } := by
    rw [hkw.2, htk1]
    simp
  have htask2 : m2.tasks.cell t2 = { m1.tasks.cell t2 with
      offset := (m1.rings.cell (m1.ctrls.cell ctrl).ring).total_size, size := b,
      type := RingBufferIOTask_READ } := by
    rw [htk2]
    simp
  refine ⟨m1, m2, (ring_buffer_submit_eq RingBufferIOTask_WRITE m0 ctrl a data1 t1 n1).trans h1,
    (ring_buffer_submit_eq RingBufferIOTask_READ m1 ctrl b data2 t2 n2).trans h2,
    ?_, ?_, ?_, ?_, ?_, ?_, ?_, ?_, ?_, hr1, hr2.trans hr1⟩
  · rw [hcc2]
    rw [hcc1] at hqw2
    simpa using hqw2.2.2.2
  · rw [hcc2]
    rw [hcc1] at hqr2
    simpa using hqr2.2.2.2
  · rw [hcc2]
    rw [hcc1] at kf1
    have := hqf0.2.2.2
    simp only [queue_of] at kf1 kf0 this
    rw [kf1, kf0, this]
    rfl
  · rw [hcc2]
    rw [hcc1] at hqw2
    have := queue_top_ok hqw2
    rw [hkw.1, hnode1] at this
    exact this
  · rw [hcc2]
    rw [hcc1] at hqr2
    have := queue_top_ok hqr2
    rw [hnode2] at this
    exact this
  · rw [htask1]
    exact ⟨rfl, rfl⟩
  · rw [htask2]
    exact ⟨rfl, rfl⟩
  · rw [htask1, htask2, hr1, hcc1]
  · rw [htask1, hring]
    exact hts

theorem C10_write_then_read_witness :
    init_ringbuffer Mem.empty 1 1 1 1 2 3 = some (RingBufferInit_OK, 1, Mem.fresh_ctrl) ∧
    (Mem.fresh_ctrl.ctrls.cell 1).wr_queue ≠ 0 ∧ (Mem.fresh_ctrl.ctrls.cell 1).rd_queue ≠ 0 ∧
    (Mem.fresh_ctrl.ctrls.cell 1).fl_queue ≠ 0 ∧
    ((1 : Nat) ≠ 0 ∧ Mem.fresh_ctrl.tasks.live 1 = false) ∧
    ((1 : Nat) ≠ 0 ∧ Mem.fresh_ctrl.nodes.live 1 = false) ∧
    ((2 : Nat) ≠ 0 ∧ (2 : Nat) ≠ 1 ∧ Mem.fresh_ctrl.tasks.live 2 = false) ∧
    ((2 : Nat) ≠ 0 ∧ (2 : Nat) ≠ 1 ∧ Mem.fresh_ctrl.nodes.live 2 = false) ∧
    ∃ m1 m2, ring_buffer_write Mem.fresh_ctrl 1 128 0 1 1 = some (0, m1) ∧
      ring_buffer_read m1 1 64 0 2 2 = some (0, m2) ∧
      (m2.queues.cell (m2.ctrls.cell 1).wr_queue).size = 1 ∧
      (m2.queues.cell (m2.ctrls.cell 1).rd_queue).size = 1 ∧
      (m2.queues.cell (m2.ctrls.cell 1).fl_queue).size = 0 ∧
      queue_top m2 (m2.ctrls.cell 1).wr_queue = some (RingBufferQueueOp_OK, some 1) ∧
      queue_top m2 (m2.ctrls.cell 1).rd_queue = some (RingBufferQueueOp_OK, some 2) ∧
      ((m2.tasks.cell 1).type = RingBufferIOTask_WRITE ∧ (m2.tasks.cell 1).size = 128) ∧
      ((m2.tasks.cell 2).type = RingBufferIOTask_READ ∧ (m2.tasks.cell 2).size = 64) ∧
      (m2.tasks.cell 1).offset = (m2.tasks.cell 2).offset ∧
      (m2.tasks.cell 1).offset = 4096 ∧
      m1.rings = Mem.fresh_ctrl.rings ∧ m2.rings = Mem.fresh_ctrl.rings :=
  ⟨rfl, by decide, by decide, by decide, ⟨by decide, rfl⟩, ⟨by decide, rfl⟩,
    ⟨by decide, by decide, rfl⟩, ⟨by decide, by decide, rfl⟩,
    C10_write_then_read Mem.empty 1 1 1 1 2 3 1 Mem.fresh_ctrl rfl (by decide) (by decide)
      (by decide) 128 64 0 0 1 1 2 2 ⟨by decide, rfl⟩ ⟨by decide, rfl⟩
      ⟨by decide, by decide, rfl⟩ ⟨by decide, by decide, rfl⟩⟩

/-! ## Claims on null handles, result codes and ring cursors -/

/-- C16: on a null queue handle `queue_push`, `queue_pop` and `queue_top` each return
`RingBufferQueueOp_NULL`; the memory is returned as given (nothing is enqueued) and no
payload is written. -/
theorem C16_null_handle (m : Mem) (data choice : Nat) :
    queue_push m 0 data choice = some (RingBufferQueueOp_NULL, m) ∧
      queue_pop m 0 = some (RingBufferQueueOp_NULL, none, m) ∧
      queue_top m 0 = some (RingBufferQueueOp_NULL, none) :=
  ⟨by simp [queue_push], queue_pop_null m 0 (Or.inl rfl), queue_top_null m 0 (Or.inl rfl)⟩

/-- C19, as stated, fails: on the empty queue at address `1` of `Mem.fresh_queue` and on the
null handle `queue_pop` returns the same result, and so does `queue_top`. -/
theorem C19_same_code_counterexample :
    (Mem.fresh_queue.queues.cell 1).size = 0 ∧
      queue_pop Mem.fresh_queue 1 = queue_pop Mem.fresh_queue 0 ∧
      queue_top Mem.fresh_queue 1 = queue_top Mem.fresh_queue 0 :=
  ⟨rfl, rfl, rfl⟩

/-- C19 (amended): the result codes do not tell an empty queue from a null handle.  For a
queue of size 0, `queue_pop` and `queue_top` return `RingBufferQueueOp_NULL`, the code they
return for the null handle. -/
theorem C19_empty_and_null_same_code (m : Mem) (q : Nat) (h : (m.queues.cell q).size = 0) :
    (queue_pop m q).map (fun r => r.1) = some RingBufferQueueOp_NULL ∧
      (queue_pop m 0).map (fun r => r.1) = some RingBufferQueueOp_NULL ∧
      (queue_top m q).map (fun r => r.1) = some RingBufferQueueOp_NULL ∧
      (queue_top m 0).map (fun r => r.1) = some RingBufferQueueOp_NULL := by
  rw [queue_pop_null m q (Or.inr h), queue_pop_null m 0 (Or.inl rfl),
    queue_top_null m q (Or.inr h), queue_top_null m 0 (Or.inl rfl)]
  exact ⟨rfl, rfl, rfl, rfl⟩

theorem C19_empty_and_null_same_code_witness :
    (Mem.fresh_queue.queues.cell 1).size = 0 ∧
    (queue_pop Mem.fresh_queue 1).map (fun r => r.1) = some RingBufferQueueOp_NULL ∧
      (queue_pop Mem.fresh_queue 0).map (fun r => r.1) = some RingBufferQueueOp_NULL ∧
      (queue_top Mem.fresh_queue 1).map (fun r => r.1) = some RingBufferQueueOp_NULL ∧
      (queue_top Mem.fresh_queue 0).map (fun r => r.1) = some RingBufferQueueOp_NULL :=
  ⟨rfl, C19_empty_and_null_same_code Mem.fresh_queue 1 rfl⟩

/-- C20: `get_ring_buffer_head` returns `total_size`, not `head`.  On the ring of
`Mem.one_ring 0 0 4096` (head 0, total size 4096) it returns 4096, and after
`inc_ring_buffer_head` by 5, which does set head to 5, it still returns 4096. -/
theorem C20_get_head_reads_total_size :
    ((Mem.one_ring 0 0 4096).rings.cell 1).head = 0 ∧
      get_ring_buffer_head (Mem.one_ring 0 0 4096) 1 = some 4096 ∧
      ∃ m2, inc_ring_buffer_head (Mem.one_ring 0 0 4096) 1 5 = some m2 ∧
        (m2.rings.cell 1).head = 5 ∧ get_ring_buffer_head m2 1 = some 4096 := by
  refine ⟨rfl, rfl, _, rfl, ?_, rfl⟩
  decide

theorem wrap32_id (x : Int) (h1 : INT_MIN ≤ x) (h2 : x ≤ INT_MAX) : wrap32 x = x := by
  unfold INT_MIN at h1
  unfold INT_MAX at h2
  unfold wrap32
  omega

/-- C12, as stated, fails: starting from head 0, `inc_ring_buffer_head` by 2147483647 and
then by 1, both non-negative `int` deltas, takes head from 2147483647 to -2147483648. -/
theorem C12_head_wraps_counterexample :
    (0 : Int) ≤ 2147483647 ∧ (0 : Int) ≤ 1 ∧
    (inc_ring_buffer_head (Mem.one_ring 0 0 4096) 1 2147483647).map
      (fun m => (m.rings.cell 1).head) = some 2147483647 ∧
    ((inc_ring_buffer_head (Mem.one_ring 0 0 4096) 1 2147483647).bind
      (fun m => inc_ring_buffer_head m 1 1)).map
      (fun m => (m.rings.cell 1).head) = some (-2147483648) ∧
    (-2147483648 : Int) < 2147483647 := by
  refine ⟨by decide, by decide, ?_, ?_, by decide⟩ <;> decide

/-- C12 (amended): for every ring whose head and tail are `int` values and every delta
`d ≥ 0`, if `head + d` does not exceed `INT_MAX` then `inc_ring_buffer_head` sets head to
`head + d`, which is at least the old head, and leaves tail and total size as they were; and
if `tail + d` does not exceed `INT_MAX` then `inc_ring_buffer_tail` sets tail to `tail + d`,
at least the old tail, and leaves head and total size as they were. -/
theorem C12_cursor_monotone (m : Mem) (ring : Nat) (d : Int) (hr : ring ≠ 0) (hd : 0 ≤ d)
    (hh : INT_MIN ≤ (m.rings.cell ring).head) (ht : INT_MIN ≤ (m.rings.cell ring).tail) :
    ((m.rings.cell ring).head + d ≤ INT_MAX →
      ∃ m2, inc_ring_buffer_head m ring d = some m2 ∧
        (m2.rings.cell ring).head = (m.rings.cell ring).head + d ∧
        (m.rings.cell ring).head ≤ (m2.rings.cell ring).head ∧
        (m2.rings.cell ring).tail = (m.rings.cell ring).tail ∧
        (m2.rings.cell ring).total_size = (m.rings.cell ring).total_size) ∧
    ((m.rings.cell ring).tail + d ≤ INT_MAX →
      ∃ m2, inc_ring_buffer_tail m ring d = some m2 ∧
        (m2.rings.cell ring).tail = (m.rings.cell ring).tail + d ∧
        (m.rings.cell ring).tail ≤ (m2.rings.cell ring).tail ∧
        (m2.rings.cell ring).head = (m.rings.cell ring).head ∧
        (m2.rings.cell ring).total_size = (m.rings.cell ring).total_size) := by
  constructor
  · intro hmax
    refine ⟨_, by simp only [inc_ring_buffer_head, if_neg hr]; rfl, ?_, ?_, ?_, ?_⟩
    · simp [Store.write, wrap32_id _ (by omega) hmax]
    · simp [Store.write, wrap32_id _ (by omega) hmax, hd]
    · simp [Store.write]
    · simp [Store.write]
  · intro hmax
    refine ⟨_, by simp only [inc_ring_buffer_tail, if_neg hr]; rfl, ?_, ?_, ?_, ?_⟩
    · simp [Store.write, wrap32_id _ (by omega) hmax]
    · simp [Store.write, wrap32_id _ (by omega) hmax, hd]
    · simp [Store.write]
    · simp [Store.write]

theorem C12_cursor_monotone_witness :
    (1 : Nat) ≠ 0 ∧ (0 : Int) ≤ 128 ∧ INT_MIN ≤ ((Mem.one_ring 10 20 4096).rings.cell 1).head ∧
    INT_MIN ≤ ((Mem.one_ring 10 20 4096).rings.cell 1).tail ∧
    (((Mem.one_ring 10 20 4096).rings.cell 1).head + 128 ≤ INT_MAX →
      ∃ m2, inc_ring_buffer_head (Mem.one_ring 10 20 4096) 1 128 = some m2 ∧
        (m2.rings.cell 1).head = ((Mem.one_ring 10 20 4096).rings.cell 1).head + 128 ∧
        ((Mem.one_ring 10 20 4096).rings.cell 1).head ≤ (m2.rings.cell 1).head ∧
        (m2.rings.cell 1).tail = ((Mem.one_ring 10 20 4096).rings.cell 1).tail ∧
        (m2.rings.cell 1).total_size = ((Mem.one_ring 10 20 4096).rings.cell 1).total_size) ∧
    (((Mem.one_ring 10 20 4096).rings.cell 1).tail + 128 ≤ INT_MAX →
      ∃ m2, inc_ring_buffer_tail (Mem.one_ring 10 20 4096) 1 128 = some m2 ∧
        (m2.rings.cell 1).tail = ((Mem.one_ring 10 20 4096).rings.cell 1).tail + 128 ∧
        ((Mem.one_ring 10 20 4096).rings.cell 1).tail ≤ (m2.rings.cell 1).tail ∧
        (m2.rings.cell 1).head = ((Mem.one_ring 10 20 4096).rings.cell 1).head ∧
        (m2.rings.cell 1).total_size = ((Mem.one_ring 10 20 4096).rings.cell 1).total_size) :=
  ⟨by decide, by decide, by decide, by decide,
    C12_cursor_monotone (Mem.one_ring 10 20 4096) 1 128 (by decide) (by decide) (by decide)
      (by decide)⟩

/-! ## Failing submits and unchecked allocations in `init_ringbuffer` -/

theorem queue_push_not_ok {m m2 : Mem} {q d c : Nat} {res : RingBufferQueueOpRes}
    (h : queue_push m q d c = some (res, m2)) (hres : res ≠ RingBufferQueueOp_OK) : m2 = m := by
  unfold queue_push at h
  by_cases hq : q = 0
  · simp only [if_pos hq, Option.some.injEq, Prod.mk.injEq] at h
    exact h.2.symm
  · simp only [if_neg hq] at h
    rcases choice_cases m.nodes c with hc | hc
    · rw [malloc_ok _ _ hc.1 hc.2] at h
      simp only [if_neg hc.1] at h
      split at h
      · split at h
        · exact absurd h (by simp)
        · simp only [Option.some.injEq, Prod.mk.injEq] at h
          exact absurd h.1.symm hres
      · simp only [Option.some.injEq, Prod.mk.injEq] at h
        exact absurd h.1.symm hres
    · rw [malloc_fail _ _ hc] at h
      simp only [if_true, Option.some.injEq, Prod.mk.injEq] at h
      exact h.2.symm

theorem destroy_io_task_frame {m m2 : Mem} {t : Nat} (h : destroy_io_task m t = some m2) :
    m2.ctrls = m.ctrls ∧ m2.rings = m.rings ∧ m2.pools = m.pools ∧ m2.queues = m.queues ∧
      m2.nodes = m.nodes ∧ (∀ a, a ≠ t → m2.tasks.cell a = m.tasks.cell a) ∧
      ∀ a, a ≠ t → m2.tasks.live a = m.tasks.live a := by
  unfold destroy_io_task at h
  by_cases ht : t = 0
  · simp [ht] at h
  · simp only [if_neg ht] at h
    split at h
    · simp only [Option.some.injEq] at h
      subst h
      exact ⟨rfl, rfl, rfl, rfl, rfl, fun _ _ => rfl, fun _ _ => rfl⟩
    · unfold Store.free at h
      simp only [if_neg ht] at h
      split at h
      · simp only [Option.map_some', Option.some.injEq] at h
        subst h
        exact ⟨rfl, rfl, rfl, rfl, rfl, fun a ha => by simp [Function.update_noteq ha],
          fun a ha => by simp [Function.update_noteq ha]⟩
      · simp at h

theorem destroy_io_task_live (m : Mem) (t : Nat) (ht : t ≠ 0) (hl : m.tasks.live t = true) :
    ∃ m2, destroy_io_task m t = some m2 := by
  unfold destroy_io_task
  simp only [if_neg ht]
  split
  · exact ⟨m, rfl⟩
  · rw [free_ok _ t ht hl]
    exact ⟨_, rfl⟩

/-- What a submit that returned a non-zero value did: it returned 1 and changed nothing
but the task block the allocator answered with. -/
theorem submit_body_failure {ty : RingBufferIOTaskType} {m m2 : Mem} {ctrl : Nat} {size : Int}
    {c_task c_node : Nat} {r : Int}
    (h : submit_body ty m ctrl size c_task c_node = some (r, m2)) (hr : r ≠ 0) :
    r = 1 ∧ m2.ctrls = m.ctrls ∧ m2.rings = m.rings ∧ m2.pools = m.pools ∧
      m2.queues = m.queues ∧ m2.nodes = m.nodes ∧
      (∀ a, m.tasks.live a = true →
        m2.tasks.cell a = m.tasks.cell a ∧ m2.tasks.live a = true) := by
  unfold submit_body at h
  by_cases hc : ctrl = 0
  · simp [hc] at h
  · simp only [if_neg hc] at h
    by_cases hring : (m.ctrls.cell ctrl).ring = 0
    · simp [get_ring_buffer_size, hring] at h
    · simp only [get_ring_buffer_size, if_neg hring, Option.some_bind] at h
      rcases choice_cases m.tasks c_task with hct | hct
      · rw [make_io_task_ok m ty _ size c_task hct.1 hct.2] at h
        simp only [if_neg hct.1] at h
        generalize hpush : queue_push _ _ c_task c_node = o at h
        cases o with
        | none => simp at h
        | some p =>
          obtain ⟨res, m3⟩ := p
          simp only [Option.some_bind] at h
          by_cases hres : res = RingBufferQueueOp_OK
          · simp only [hres, ne_eq, not_true_eq_false, if_false, Option.some.injEq,
              Prod.mk.injEq] at h
            exact absurd h.1.symm hr
          · simp only [ne_eq, hres, not_false_eq_true, if_true, Option.map_eq_some'] at h
            obtain ⟨m4, hd, heq⟩ := h
            simp only [Prod.mk.injEq] at heq
            obtain ⟨rfl, rfl⟩ := heq
            have hm3 := queue_push_not_ok hpush hres
            subst hm3
            obtain ⟨d1, d2, d3, d4, d5, d6, d7⟩ := destroy_io_task_frame hd
            refine ⟨rfl, d1, d2, d3, d4, d5, ?_⟩
            intro a ha
            have hne : a ≠ c_task := by
              intro heq
              rw [heq, hct.2] at ha
              exact Bool.noConfusion ha
            rw [d6 a hne, d7 a hne]
            simp [Function.update_noteq hne, ha]
      · rw [make_io_task_fail m ty _ size c_task hct] at h
        simp only [if_true, Option.some.injEq, Prod.mk.injEq] at h
        obtain ⟨rfl, rfl⟩ := h
        exact ⟨rfl, rfl, rfl, rfl, rfl, rfl, fun a ha => ⟨rfl, ha⟩⟩

/-- On an initialised controller a submit always returns. -/
theorem submit_body_total {ty : RingBufferIOTaskType} {m : Mem} {ctrl : Nat} (size : Int)
    (c_task c_node : Nat) {L : RingBufferIOTaskType → List Nat} (hC : CtrlRep m ctrl L) :
    ∃ r m2, submit_body ty m ctrl size c_task c_node = some (r, m2) := by
  rcases choice_cases m.tasks c_task with hct | hct
  · obtain ⟨m1, hm1, hc1, hq1, hn1, hl1⟩ : ∃ m1,
        make_io_task m ty (m.rings.cell (m.ctrls.cell ctrl).ring).total_size size c_task =
          (c_task, m1) ∧ m1.ctrls = m.ctrls ∧ m1.queues = m.queues ∧ m1.nodes = m.nodes ∧
          m1.tasks.live c_task = true :=
      ⟨_, make_io_task_ok m ty _ size c_task hct.1 hct.2, rfl, rfl, rfl, by simp⟩
    obtain ⟨m3, hd⟩ := destroy_io_task_live m1 c_task hct.1 hl1
    rcases hC.2.2.1 ty with ⟨hq0, _⟩ | hq
    · simp only [submit_body, if_neg hC.1, get_ring_buffer_size, if_neg hC.2.1,
        Option.some_bind]
      rw [hm1]
      simp only [if_neg hct.1, hc1, hq0, queue_push, if_true, Option.some_bind]
      rw [if_pos (by decide), hd]
      exact ⟨_, _, rfl⟩
    · rcases choice_cases m.nodes c_node with hcn | hcn
      · obtain ⟨m2, h⟩ := @submit_body_ok ty m ctrl size c_task c_node (L ty) hC.1 hC.2.1 hq hct hcn
        exact ⟨_, _, h⟩
      · simp only [submit_body, if_neg hC.1, get_ring_buffer_size, if_neg hC.2.1,
          Option.some_bind]
        rw [hm1]
        simp only [if_neg hct.1, hc1]
        rw [queue_push_nomem m1 _ _ _ hq.1 (by rw [hn1]; exact hcn)]
        simp only [Option.some_bind]
        rw [if_pos (by decide), hd]
        exact ⟨_, _, rfl⟩
  · simp only [submit_body, if_neg hC.1, get_ring_buffer_size, if_neg hC.2.1,
      Option.some_bind]
    rw [make_io_task_fail m ty _ size c_task hct]
    exact ⟨_, _, rfl⟩

/-- A submit that returned a non-zero value keeps the controller initialised and keeps each
of the three queues. -/
theorem submit_body_failure_ctrl {ty : RingBufferIOTaskType} {m m2 : Mem} {ctrl : Nat}
    {size : Int} {c_task c_node : Nat} {r : Int} {L : RingBufferIOTaskType → List Nat}
    (hC : CtrlRep m ctrl L)
    (h : submit_body ty m ctrl size c_task c_node = some (r, m2)) (hr : r ≠ 0) :
    CtrlRep m2 ctrl L ∧
      ∀ ty2, QueueKept m m2 (queue_of ty2 (m.ctrls.cell ctrl)) (L ty2) := by
  obtain ⟨_, h1, _, _, h4, h5, h6⟩ := submit_body_failure h hr
  obtain ⟨hc, hring, hqs, hdq, hdl, htl⟩ := hC
  have hq2 : ∀ ty2, QueueOpt m2 (queue_of ty2 (m.ctrls.cell ctrl)) (L ty2) := fun ty2 =>
    queueOpt_of_same (hqs ty2) (by rw [h4]) (fun a _ => by rw [h5]; exact ⟨rfl, rfl⟩)
  refine ⟨⟨hc, by rw [h1]; exact hring, by rw [h1]; exact hq2, by rw [h1]; exact hdq, hdl, ?_⟩,
    fun ty2 => ⟨by rw [h4], hq2 ty2, by simp [payloads, h5], fun a ha => ⟨by rw [h5], ?_⟩⟩⟩
  · intro ty2 a ha
    rw [h5]
    exact (h6 _ (htl ty2 a ha)).2
  · exact (h6 _ (htl ty2 a ha)).1

/-- C11: on an initialised controller every submit (`ring_buffer_write`, `ring_buffer_read`
or `ring_buffer_flush`, selected by `ty`) returns, with 0 or 1; when it returns a non-zero
value the controller struct, the ring store (head, tail, total size), the queue structs and
the nodes are exactly as before the call, and each of the three queues is kept with its
payloads and the tasks behind them. -/
theorem C11_submit_failure_atomic (m : Mem) (ctrl : Nat) (L : RingBufferIOTaskType → List Nat)
    (hC : CtrlRep m ctrl L) (ty : RingBufferIOTaskType) (size : Int)
    (data c_task c_node : Nat) :
    ∃ r m2, ring_buffer_submit ty m ctrl size data c_task c_node = some (r, m2) ∧
      (r = 0 ∨ r = 1) ∧
      (r ≠ 0 →
        m2.ctrls = m.ctrls ∧ m2.rings = m.rings ∧ m2.queues = m.queues ∧ m2.nodes = m.nodes ∧
        ∀ ty2, QueueKept m m2 (queue_of ty2 (m.ctrls.cell ctrl)) (L ty2)) := by
  obtain ⟨r, m2, h⟩ := @submit_body_total ty m ctrl size c_task c_node L hC
  refine ⟨r, m2, (ring_buffer_submit_eq ty m ctrl size data c_task c_node).trans h, ?_, ?_⟩
  · by_cases hr : r = 0
    · exact Or.inl hr
    · exact Or.inr (submit_body_failure h hr).1
  · intro hr
    obtain ⟨_, h1, h2, _, h4, h5, _⟩ := submit_body_failure h hr
    exact ⟨h1, h2, h4, h5, (submit_body_failure_ctrl hC h hr).2⟩

theorem C11_submit_failure_atomic_witness :
    CtrlRep Mem.fresh_ctrl 1 (fun _ => []) ∧
    ∃ r m2, ring_buffer_submit RingBufferIOTask_FLUSH Mem.fresh_ctrl 1 32 0 1 0 = some (r, m2) ∧
      (r = 0 ∨ r = 1) ∧
      (r ≠ 0 →
        m2.ctrls = Mem.fresh_ctrl.ctrls ∧ m2.rings = Mem.fresh_ctrl.rings ∧
        m2.queues = Mem.fresh_ctrl.queues ∧ m2.nodes = Mem.fresh_ctrl.nodes ∧
        ∀ ty2, QueueKept Mem.fresh_ctrl m2 (queue_of ty2 (Mem.fresh_ctrl.ctrls.cell 1))
          ((fun _ => []) ty2)) :=
  ⟨fresh_ctrl_rep,
    C11_submit_failure_atomic Mem.fresh_ctrl 1 (fun _ => []) fresh_ctrl_rep
      RingBufferIOTask_FLUSH 32 0 1 0⟩

/-- C13: `init_ringbuffer` does not look at the results of its three `queue_init` calls.
When the controller, ring and pool allocations succeed and the three queue allocations
fail, it returns `RingBufferInit_OK` with a controller whose three queue pointers are all
null: there are no three distinct queues of size 0. -/
theorem C13_init_ok_without_queues :
    init_ringbuffer Mem.empty 1 1 1 0 0 0 =
      some (RingBufferInit_OK, 1, Mem.init_no_queues) ∧
    (Mem.init_no_queues.rings.cell (Mem.init_no_queues.ctrls.cell 1).ring).head = 0 ∧
    (Mem.init_no_queues.rings.cell (Mem.init_no_queues.ctrls.cell 1).ring).tail = 0 ∧
    (Mem.init_no_queues.rings.cell (Mem.init_no_queues.ctrls.cell 1).ring).total_size = 4096 ∧
    (Mem.init_no_queues.ctrls.cell 1).wr_queue = 0 ∧
    (Mem.init_no_queues.ctrls.cell 1).rd_queue = 0 ∧
    (Mem.init_no_queues.ctrls.cell 1).fl_queue = 0 ∧
    (∀ a, Mem.init_no_queues.queues.live a = false) := by
  refine ⟨rfl, rfl, rfl, by decide, rfl, rfl, rfl, fun a => rfl⟩

/-- C14: `init_ringbuffer` checks only the controller and the ring allocation.  When these
two succeed and the pool allocation and the three queue allocations fail, it returns
`RingBufferInit_OK` and yields the controller at `1`, whose ring has a null pool and whose
three queue pointers are null. -/
theorem C14_init_ok_despite_failed_allocations :
    init_ringbuffer Mem.empty 1 1 0 0 0 0 =
      some (RingBufferInit_OK, 1, Mem.init_unchecked) ∧
    (Mem.init_unchecked.ctrls.cell 1).ring = 1 ∧
    (Mem.init_unchecked.rings.cell 1).pool = 0 ∧
    (Mem.init_unchecked.ctrls.cell 1).wr_queue = 0 ∧
    (Mem.init_unchecked.ctrls.cell 1).rd_queue = 0 ∧
    (Mem.init_unchecked.ctrls.cell 1).fl_queue = 0 := by
  refine ⟨rfl, rfl, rfl, rfl, rfl, rfl⟩

/-! ## The queue invariant -/

theorem linked_nodes_chain {s : Store RingBufferQueueNode} :
    ∀ (ps : List Nat) (p fuel : Nat), Chain s p ps → ps.length ≤ fuel →
      linked_nodes fuel s p = some ps
  | [], p, fuel, h, _ => by
    have hp : p = 0 := h
    unfold linked_nodes
    simp [hp]
  | a :: as, p, 0, _, hf => by simp at hf
  | a :: as, p, fuel + 1, h, hf => by
    obtain ⟨hp, ha0, _, _, hrest⟩ := h
    subst hp
    unfold linked_nodes
    simp only [if_neg ha0]
    rw [linked_nodes_chain as _ fuel hrest (by simpa using hf)]
    rfl

/-- The queue invariant when the allocator leaves the `next` word of released nodes as it
was: on a queue just set up by `queue_init`, after any sequence of `queue_push`,
`queue_pop` and `queue_top` calls (which runs without fault) there is a list `ps` of
pairwise distinct allocated nodes that is exactly what following `next` from `head` yields;
`size` is its length, `head` is null exactly when `size` is 0, in which case `tail` is null
too, and otherwise `tail` is the last node of `ps`. -/
theorem queue_invariant_link_kept (m : Mem) (c q : Nat) (m0 : Mem)
    (hinit : queue_init m c = (RingBufferQueueOp_OK, q, m0)) (hk : KeepsNext m0.nodes)
    (calls : List QueueCall) :
    ∃ tr m1 ps, queue_run m0 q calls = some (tr, m1) ∧
      (∀ fuel, ps.length ≤ fuel →
        linked_nodes fuel m1.nodes (m1.queues.cell q).head = some ps) ∧
      ps.Nodup ∧ (∀ a ∈ ps, a ≠ 0 ∧ m1.nodes.live a = true) ∧
      (m1.queues.cell q).size = ps.length ∧
      ((m1.queues.cell q).head = 0 ↔ (m1.queues.cell q).size = 0) ∧
      ((m1.queues.cell q).size = 0 → (m1.queues.cell q).tail = 0) ∧
      ((m1.queues.cell q).size ≠ 0 → ps.getLast? = some (m1.queues.cell q).tail) := by
  obtain ⟨tr, m1, ps, hrun, ⟨_, hch, htl, hsz⟩, _⟩ :=
    queue_run_spec calls (queue_init_ok hinit).1 hk
  refine ⟨tr, m1, ps, hrun, fun fuel hf => linked_nodes_chain ps _ fuel hch hf,
    chain_nodup hch, chain_mem hch, hsz, ?_, ?_, ?_⟩
  · rw [hsz]
    cases ps with
    | nil =>
      have hh : (m1.queues.cell q).head = 0 := hch
      simp [hh]
    | cons a as =>
      have hh : (m1.queues.cell q).head = a := hch.1
      have ha0 : a ≠ 0 := hch.2.1
      simp only [hh, ha0, List.length_cons, false_iff]
      omega
  · rw [hsz, htl]
    intro h0
    cases ps with
    | nil => rfl
    | cons a as => simp at h0; omega
  · rw [hsz, htl]
    intro h0
    cases ps with
    | nil => simp at h0
    | cons a as =>
      have hne : a :: as ≠ [] := by simp
      rw [List.getLast?_eq_getLast _ hne]
      rfl

/-- C17: with an allocator that clears released blocks, on the queue `queue_init` produced,
push, push, pop all return OK and leave `size` 1 with a null `head` and a non-null `tail`
(node `2`, still allocated and holding the payload 20): following `next` from `head` yields
no node, so `size` is not the number of reachable nodes and `head` is null while `size` is
not 0.  The `head` is the link `queue_pop` read from the node it had just freed. -/
theorem C17_head_null_size_one :
    queue_init Mem.clearing 1 = (RingBufferQueueOp_OK, 1, Mem.clearing_queue) ∧
    (queue_run Mem.clearing_queue 1 [.push 10 1, .push 20 2, .pop]).map
        (fun r => (r.1.map (fun e => e.res), (r.2.queues.cell 1).size,
          (r.2.queues.cell 1).head, (r.2.queues.cell 1).tail,
          linked_nodes 2 r.2.nodes (r.2.queues.cell 1).head,
          r.2.nodes.live 2, (r.2.nodes.cell 2).node)) =
      some ([RingBufferQueueOp_OK, RingBufferQueueOp_OK, RingBufferQueueOp_OK], 1, 0, 2,
        some [], true, 20) :=
  ⟨rfl, rfl⟩

/-! ## Offsets along a run of controller calls -/

theorem wrapping_step1 :
    ctrl_step Mem.fresh_ctrl 1 (.submit RingBufferIOTask_WRITE 8 0 1 1) = some Mem.wrapping1 :=
  rfl

theorem wrapping_step2 :
    ctrl_step Mem.wrapping1 1 (.inc_size 2147483647) = some Mem.wrapping2 := rfl

theorem wrapping_step3 :
    ctrl_step Mem.wrapping2 1 (.submit RingBufferIOTask_WRITE 8 0 2 2) = some Mem.wrapping3 :=
  rfl

/-- C18, as stated, fails: from the controller `init_ringbuffer` produced, a write, an
advance of the total size by 2147483647 (a non-negative `int`) and a second write leave the
write queue with the offsets 4096, -2147479553 in FIFO order. -/
theorem C18_offsets_decrease_counterexample :
    init_ringbuffer Mem.empty 1 1 1 1 2 3 = some (RingBufferInit_OK, 1, Mem.fresh_ctrl) ∧
    nonneg_deltas wrapping_calls = true ∧
    ctrl_run Mem.fresh_ctrl 1 wrapping_calls = some Mem.wrapping3 ∧
    queue_offsets 2 Mem.wrapping3 (Mem.wrapping3.ctrls.cell 1).wr_queue =
      some [4096, -2147479553] ∧
    ¬ List.Pairwise (fun x y : Int => x ≤ y) [4096, -2147479553] := by
  refine ⟨rfl, by decide, ?_, rfl, by decide⟩
  simp only [wrapping_calls, ctrl_run, wrapping_step1, wrapping_step2, wrapping_step3,
    Option.some_bind]

theorem ctrlRep_congr {m m2 : Mem} {ctrl : Nat} {L : RingBufferIOTaskType → List Nat}
    (h1 : m2.ctrls = m.ctrls) (h2 : m2.queues = m.queues) (h3 : m2.nodes = m.nodes)
    (h4 : m2.tasks = m.tasks) (hC : CtrlRep m ctrl L) : CtrlRep m2 ctrl L := by
  obtain ⟨hc, hring, hqs, hdq, hdl, htl⟩ := hC
  refine ⟨hc, by rw [h1]; exact hring, ?_, by rw [h1]; exact hdq, hdl, ?_⟩
  · intro ty
    rw [h1]
    exact queueOpt_of_same (hqs ty) (by rw [h2]) (fun a _ => by rw [h3]; exact ⟨rfl, rfl⟩)
  · intro ty a ha
    rw [h3, h4]
    exact htl ty a ha

theorem task_offsets_congr {m m2 : Mem} {ps : List Nat}
    (h : ∀ a ∈ ps, (m2.nodes.cell a).node = (m.nodes.cell a).node ∧
      m2.tasks.cell (m.nodes.cell a).node = m.tasks.cell (m.nodes.cell a).node) :
    task_offsets m2 ps = task_offsets m ps := by
  apply List.map_congr_left
  intro a ha
  rw [(h a ha).1, (h a ha).2]

/-- A submit keeps the offset invariant. -/
theorem offsetInv_submit {m : Mem} {ctrl : Nat} {L : RingBufferIOTaskType → List Nat}
    (hI : OffsetInv m ctrl L) (ty : RingBufferIOTaskType) (size : Int)
    (c_task c_node : Nat) :
    ∃ r m2 L2, submit_body ty m ctrl size c_task c_node = some (r, m2) ∧
      OffsetInv m2 ctrl L2 := by
  obtain ⟨hC, hmin, hoff⟩ := hI
  obtain ⟨r, m2, h⟩ := @submit_body_total ty m ctrl size c_task c_node L hC
  by_cases hr : r = 0
  · subst hr
    obtain ⟨hC2, hk, hown⟩ := submit_body_ctrl hC h
    obtain ⟨_, _, _, _, hpl, hs1, hs2, _, hs4, _⟩ :=
      submit_body_success hC.1 hC.2.1 (hC.2.2.1 ty) h
    have hnew : (m2.tasks.cell (m2.nodes.cell c_node).node).offset =
        (m.rings.cell (m.ctrls.cell ctrl).ring).total_size := by
      rw [(payloads_snoc_eq hpl).2, hs4]
      simp
    have hold : task_offsets m2 (L ty) = task_offsets m (L ty) := task_offsets_congr hown
    refine ⟨0, m2, _, h, hC2, by rw [hs1, hs2]; exact hmin, ?_⟩
    intro ty2
    rw [hs1, hs2]
    by_cases hne : ty2 = ty
    · subst hne
      simp only [Function.update_same]
      have hsplit : task_offsets m2 (L ty2 ++ [c_node]) =
          task_offsets m (L ty2) ++ [(m.rings.cell (m.ctrls.cell ctrl).ring).total_size] := by
        unfold task_offsets at hold ⊢
        rw [List.map_append, hold]
        simp only [List.map_cons, List.map_nil]
        rw [hnew]
      rw [hsplit]
      refine ⟨List.pairwise_append.mpr ⟨(hoff ty2).1, List.pairwise_singleton _ _, ?_⟩, ?_⟩
      · intro x hx y hy
        simp only [List.mem_singleton] at hy
        rw [hy]
        exact (hoff ty2).2 x hx
      · intro x hx
        rcases List.mem_append.mp hx with hx | hx
        · exact (hoff ty2).2 x hx
        · simp only [List.mem_singleton] at hx
          rw [hx]
    · simp only [Function.update_noteq hne]
      have := @task_offsets_congr m m2 (L ty2)
        (fun a ha => ⟨by rw [((hk ty2 hne).2.2.2 a ha).1], ((hk ty2 hne).2.2.2 a ha).2⟩)
      rw [this]
      exact hoff ty2
  · obtain ⟨hC2, hk⟩ := submit_body_failure_ctrl hC h hr
    obtain ⟨_, h1, h2, _⟩ := submit_body_failure h hr
    refine ⟨r, m2, L, h, hC2, by rw [h1, h2]; exact hmin, ?_⟩
    intro ty2
    rw [h1, h2]
    have := @task_offsets_congr m m2 (L ty2)
      (fun a ha => ⟨by rw [((hk ty2).2.2.2 a ha).1], ((hk ty2).2.2.2 a ha).2⟩)
    rw [this]
    exact hoff ty2

/-- A call with a non-negative delta that does not take the total size above `INT_MAX`
runs without fault and keeps the offset invariant. -/
theorem offsetInv_step {m : Mem} {ctrl : Nat} {L : RingBufferIOTaskType → List Nat}
    (hI : OffsetInv m ctrl L) (c : CtrlCall) (hd : 0 ≤ c.delta)
    (hfit : (m.rings.cell (m.ctrls.cell ctrl).ring).total_size + c.size_delta ≤ INT_MAX) :
    ∃ m2 L2, ctrl_step m ctrl c = some m2 ∧ OffsetInv m2 ctrl L2 := by
  cases c with
  | submit ty size data c_task c_node =>
    obtain ⟨r, m2, L2, h, hI2⟩ := offsetInv_submit hI ty size c_task c_node
    refine ⟨m2, L2, ?_, hI2⟩
    simp only [ctrl_step, ring_buffer_submit_eq, h, Option.map_some']
  | inc_head d =>
    obtain ⟨hC, hmin, hoff⟩ := hI
    obtain ⟨m2, hstep, e1, e2, e3, e4, e5⟩ : ∃ m2, ctrl_step m ctrl (.inc_head d) = some m2 ∧
        m2.ctrls = m.ctrls ∧ m2.queues = m.queues ∧ m2.nodes = m.nodes ∧ m2.tasks = m.tasks ∧
        (m2.rings.cell (m.ctrls.cell ctrl).ring).total_size =
          (m.rings.cell (m.ctrls.cell ctrl).ring).total_size := by
      refine ⟨{ m with rings := (m.rings.write (m.ctrls.cell ctrl).ring
          { m.rings.cell (m.ctrls.cell ctrl).ring with
            head := wrap32 ((m.rings.cell (m.ctrls.cell ctrl).ring).head + d) }) },
        ?_, rfl, rfl, rfl, rfl, ?_⟩
      · simp only [ctrl_step, inc_ring_buffer_head, if_neg hC.2.1]
      · simp [Store.write]
    refine ⟨m2, L, hstep, ctrlRep_congr e1 e2 e3 e4 hC, by rw [e1, e5]; exact hmin, ?_⟩
    intro ty
    have ht : task_offsets m2 (L ty) = task_offsets m (L ty) := by
      unfold task_offsets
      rw [e3, e4]
    rw [ht, e1, e5]
    exact hoff ty
  | inc_tail d =>
    obtain ⟨hC, hmin, hoff⟩ := hI
    obtain ⟨m2, hstep, e1, e2, e3, e4, e5⟩ : ∃ m2, ctrl_step m ctrl (.inc_tail d) = some m2 ∧
        m2.ctrls = m.ctrls ∧ m2.queues = m.queues ∧ m2.nodes = m.nodes ∧ m2.tasks = m.tasks ∧
        (m2.rings.cell (m.ctrls.cell ctrl).ring).total_size =
          (m.rings.cell (m.ctrls.cell ctrl).ring).total_size := by
      refine ⟨{ m with rings := (m.rings.write (m.ctrls.cell ctrl).ring
          { m.rings.cell (m.ctrls.cell ctrl).ring with
            tail := wrap32 ((m.rings.cell (m.ctrls.cell ctrl).ring).tail + d) }) },
        ?_, rfl, rfl, rfl, rfl, ?_⟩
      · simp only [ctrl_step, inc_ring_buffer_tail, if_neg hC.2.1]
      · simp [Store.write]
    refine ⟨m2, L, hstep, ctrlRep_congr e1 e2 e3 e4 hC, by rw [e1, e5]; exact hmin, ?_⟩
    intro ty
    have ht : task_offsets m2 (L ty) = task_offsets m (L ty) := by
      unfold task_offsets
      rw [e3, e4]
    rw [ht, e1, e5]
    exact hoff ty
  | inc_size d =>
    obtain ⟨hC, hmin, hoff⟩ := hI
    have hd2 : 0 ≤ d := hd
    have hfit2 : (m.rings.cell (m.ctrls.cell ctrl).ring).total_size + d ≤ INT_MAX := hfit
    have hw := wrap32_id ((m.rings.cell (m.ctrls.cell ctrl).ring).total_size + d)
      (by omega) hfit2
    obtain ⟨m2, hstep, e1, e2, e3, e4, e5⟩ : ∃ m2, ctrl_step m ctrl (.inc_size d) = some m2 ∧
        m2.ctrls = m.ctrls ∧ m2.queues = m.queues ∧ m2.nodes = m.nodes ∧ m2.tasks = m.tasks ∧
        (m2.rings.cell (m.ctrls.cell ctrl).ring).total_size =
          wrap32 ((m.rings.cell (m.ctrls.cell ctrl).ring).total_size + d) := by
      refine ⟨{ m with rings := (m.rings.write (m.ctrls.cell ctrl).ring
          { m.rings.cell (m.ctrls.cell ctrl).ring with
            total_size := wrap32 ((m.rings.cell (m.ctrls.cell ctrl).ring).total_size + d) }) },
        ?_, rfl, rfl, rfl, rfl, ?_⟩
      · simp only [ctrl_step, inc_ring_buffer_size, if_neg hC.2.1]
      · simp [Store.write]
    rw [hw] at e5
    refine ⟨m2, L, hstep, ctrlRep_congr e1 e2 e3 e4 hC, by rw [e1, e5]; omega, ?_⟩
    intro ty
    have ht : task_offsets m2 (L ty) = task_offsets m (L ty) := by
      unfold task_offsets
      rw [e3, e4]
    rw [ht, e1, e5]
    refine ⟨(hoff ty).1, fun x hx => ?_⟩
    have := (hoff ty).2 x hx
    omega

theorem offsetInv_run {ctrl : Nat} : ∀ (calls : List CtrlCall) {m : Mem}
    {L : RingBufferIOTaskType → List Nat}, OffsetInv m ctrl L →
    nonneg_deltas calls = true → size_fits m ctrl calls = true →
    ∃ m2 L2, ctrl_run m ctrl calls = some m2 ∧ OffsetInv m2 ctrl L2
  | [], m, L, hI, _, _ => ⟨m, L, rfl, hI⟩
  | c :: cs, m, L, hI, hnn, hfit => by
    simp only [nonneg_deltas, List.all_cons, Bool.and_eq_true, decide_eq_true_eq] at hnn
    simp only [size_fits, Bool.and_eq_true, decide_eq_true_eq] at hfit
    obtain ⟨m1, L1, hstep, hI1⟩ := offsetInv_step hI c hnn.1 hfit.1
    have hfit2 := hfit.2
    rw [hstep] at hfit2
    obtain ⟨m2, L2, hrun, hI2⟩ := offsetInv_run cs hI1 hnn.2 hfit2
    exact ⟨m2, L2, by simp only [ctrl_run, hstep, Option.some_bind, hrun], hI2⟩

theorem offsetInv_init {m m0 : Mem} {c_ctrl c_ring c_pool c_wr c_rd c_fl ctrl : Nat}
    (h : init_ringbuffer m c_ctrl c_ring c_pool c_wr c_rd c_fl =
      some (RingBufferInit_OK, ctrl, m0)) :
    OffsetInv m0 ctrl (fun _ => []) := by
  obtain ⟨ring, wr, rd, fl, hcell, _, _, ⟨_, _, hts⟩, _⟩ := init_ringbuffer_ok h
  refine ⟨init_ringbuffer_ctrlRep h, ?_, fun ty => ⟨by simp [task_offsets], by simp [task_offsets]⟩⟩
  rw [hcell, hts]
  decide

theorem queueOpt_linked {m : Mem} {q : Nat} {ps : List Nat} (h : QueueOpt m q ps)
    (hq : q ≠ 0) (fuel : Nat) (hf : ps.length ≤ fuel) :
    queue_offsets fuel m q = some (task_offsets m ps) := by
  have hrep := queueOpt_nonnull h (Or.inl hq)
  unfold queue_offsets
  rw [linked_nodes_chain ps _ fuel hrep.2.1 hf]
  rfl

/-- C18 (amended): from the controller `init_ringbuffer` produced, every sequence of
submits and of advances of head, tail and total size with non-negative deltas, in which no
advance takes the total size above `INT_MAX`, runs without fault, and afterwards, in each of
the three queues that is not null, the offsets of the queued tasks read from head to tail
(with fuel for every node) form a non-decreasing sequence. -/
theorem C18_offsets_nondecreasing (m : Mem) (c_ctrl c_ring c_pool c_wr c_rd c_fl ctrl : Nat)
    (m0 : Mem)
    (hinit : init_ringbuffer m c_ctrl c_ring c_pool c_wr c_rd c_fl =
      some (RingBufferInit_OK, ctrl, m0))
    (calls : List CtrlCall) (hnn : nonneg_deltas calls = true)
    (hfit : size_fits m0 ctrl calls = true) :
    ∃ m2, ctrl_run m0 ctrl calls = some m2 ∧
      ∀ ty, queue_of ty (m2.ctrls.cell ctrl) ≠ 0 →
        ∃ offs, (∃ n, ∀ fuel, n ≤ fuel →
            queue_offsets fuel m2 (queue_of ty (m2.ctrls.cell ctrl)) = some offs) ∧
          List.Pairwise (fun x y : Int => x ≤ y) offs := by
  obtain ⟨m2, L2, hrun, hC, _, hoff⟩ := offsetInv_run calls (offsetInv_init hinit) hnn hfit
  refine ⟨m2, hrun, fun ty hq => ⟨task_offsets m2 (L2 ty), ⟨(L2 ty).length, ?_⟩, (hoff ty).1⟩⟩
  intro fuel hf
  exact queueOpt_linked (hC.2.2.1 ty) hq fuel hf

theorem fitting_step2 : ctrl_step Mem.wrapping1 1 (.inc_size 100) = some Mem.fitting2 := rfl

theorem fitting_step3 :
    ctrl_step Mem.fitting2 1 (.submit RingBufferIOTask_WRITE 8 0 2 2) = some Mem.fitting3 :=
  rfl

theorem fitting_run : ctrl_run Mem.fresh_ctrl 1 fitting_calls = some Mem.fitting3 := by
  simp only [fitting_calls, ctrl_run, wrapping_step1, fitting_step2, fitting_step3,
    Option.some_bind]

theorem fitting_size_fits : size_fits Mem.fresh_ctrl 1 fitting_calls = true := by
  have h1 : ((Mem.fresh_ctrl.rings.cell (Mem.fresh_ctrl.ctrls.cell 1).ring).total_size : Int)
      = 4096 := rfl
  have h2 : ((Mem.wrapping1.rings.cell (Mem.wrapping1.ctrls.cell 1).ring).total_size : Int)
      = 4096 := rfl
  have h3 : ((Mem.fitting2.rings.cell (Mem.fitting2.ctrls.cell 1).ring).total_size : Int)
      = 4196 := rfl
  simp only [fitting_calls, size_fits, wrapping_step1, fitting_step2, fitting_step3, h1, h2, h3,
    CtrlCall.size_delta]
  decide

theorem C18_offsets_nondecreasing_witness :
    init_ringbuffer Mem.empty 1 1 1 1 2 3 = some (RingBufferInit_OK, 1, Mem.fresh_ctrl) ∧
    nonneg_deltas fitting_calls = true ∧ size_fits Mem.fresh_ctrl 1 fitting_calls = true ∧
    ctrl_run Mem.fresh_ctrl 1 fitting_calls = some Mem.fitting3 ∧
    queue_offsets 2 Mem.fitting3 (queue_of RingBufferIOTask_WRITE (Mem.fitting3.ctrls.cell 1)) =
      some [4096, 4196] ∧
    ∃ m2, ctrl_run Mem.fresh_ctrl 1 fitting_calls = some m2 ∧
      ∀ ty, queue_of ty (m2.ctrls.cell 1) ≠ 0 →
        ∃ offs, (∃ n, ∀ fuel, n ≤ fuel →
            queue_offsets fuel m2 (queue_of ty (m2.ctrls.cell 1)) = some offs) ∧
          List.Pairwise (fun x y : Int => x ≤ y) offs :=
  ⟨rfl, by decide, fitting_size_fits, fitting_run, rfl,
    C18_offsets_nondecreasing Mem.empty 1 1 1 1 2 3 1 Mem.fresh_ctrl rfl fitting_calls
      (by decide) fitting_size_fits⟩

/-! ## Teardown of an initialised controller -/

theorem queue_exit_loop_spec : ∀ (ps : List Nat) (fuel : Nat) (m : Mem) (q : Nat),
    Chain m.nodes (m.queues.cell q).head ps → ps.length ≤ fuel →
    ∃ m2, queue_exit_loop fuel m q = some m2 ∧ m2.queues.live = m.queues.live ∧
      ExitFrame m m2 q ps
  | [], fuel, m, q, h, _ => by
    have hh : (m.queues.cell q).head = 0 := h
    refine ⟨m, ?_, rfl, rfl, rfl, rfl, rfl, fun _ _ => rfl, fun _ _ => rfl,
      fun _ _ => ⟨rfl, rfl⟩⟩
    unfold queue_exit_loop
    simp [hh]
  | a :: as, 0, m, q, _, hf => by simp at hf
  | a :: as, fuel + 1, m, q, h, hf => by
    obtain ⟨hh, ha0, hal, hna, hrest⟩ := h
    have hchain : Chain
        ({ m with
            queues := m.queues.write q
              { m.queues.cell q with head := (m.nodes.cell (m.queues.cell q).head).next },
            nodes := { m.nodes with
              cell := Function.update m.nodes.cell a (m.nodes.scrub a (m.nodes.cell a))
              live := Function.update m.nodes.live a false } } : Mem).nodes
        (({ m with
            queues := m.queues.write q
              { m.queues.cell q with head := (m.nodes.cell (m.queues.cell q).head).next },
            nodes := { m.nodes with
              cell := Function.update m.nodes.cell a (m.nodes.scrub a (m.nodes.cell a))
              live := Function.update m.nodes.live a false } } :
              Mem).queues.cell q).head as := by
      simp only [Store.write, Function.update_same, hh]
      refine chain_frame hrest (fun b hb => ?_)
      have hba : b ≠ a := fun heq => hna (heq ▸ hb)
      exact ⟨by simp [Function.update_noteq hba], by simp [Function.update_noteq hba]⟩
    obtain ⟨m2, hloop, hql, f1, f2, f3, f4, f5, f6, f7⟩ :=
      queue_exit_loop_spec as fuel _ q hchain (by simpa using hf)
    refine ⟨m2, ?_, ?_, f1, f2, f3, f4, ?_, ?_, ?_⟩
    · rw [queue_exit_loop]
      simp only [hh, if_neg ha0, free_ok _ a ha0 hal, Option.some_bind]
      rw [← hloop]
      simp only [hh]
    · rw [hql]
      rfl
    · intro b hb
      have hba : b ≠ a := fun heq => hb (heq ▸ List.mem_cons_self _ _)
      rw [f5 b (fun hmem => hb (List.mem_cons_of_mem _ hmem))]
      simp [Function.update_noteq hba]
    · intro b hb
      have hba : b ≠ a := fun heq => hb (heq ▸ List.mem_cons_self _ _)
      rw [f6 b (fun hmem => hb (List.mem_cons_of_mem _ hmem))]
      simp [Function.update_noteq hba]
    · intro q2 hq2
      rw [(f7 q2 hq2).1, (f7 q2 hq2).2]
      simp [Store.write, Function.update_noteq hq2]

theorem queue_exit_spec {m : Mem} {q : Nat} {ps : List Nat} (fuel : Nat)
    (h : QueueOpt m q ps) (hl : q ≠ 0 → m.queues.live q = true) (hf : ps.length ≤ fuel) :
    ∃ m2, queue_exit fuel m q = some (RingBufferQueueOp_OK, m2) ∧ ExitFrame m m2 q ps := by
  by_cases hq : q = 0
  · refine ⟨m, by simp [queue_exit, hq], rfl, rfl, rfl, rfl, fun _ _ => rfl, fun _ _ => rfl,
      fun _ _ => ⟨rfl, rfl⟩⟩
  · have hrep := queueOpt_nonnull h (Or.inl hq)
    obtain ⟨m1, hloop, hql, f1, f2, f3, f4, f5, f6, f7⟩ :=
      queue_exit_loop_spec ps fuel m q hrep.2.1 hf
    have hlive : m1.queues.live q = true := by rw [hql]; exact hl hq
    refine ⟨{ m1 with queues :=
        { m1.queues with
          cell := Function.update m1.queues.cell q (m1.queues.scrub q (m1.queues.cell q))
          live := Function.update m1.queues.live q false } },
      ?_, f1, f2, f3, f4, f5, f6, ?_⟩
    · simp only [queue_exit, if_neg hq, hloop, Option.some_bind, free_ok _ q hq hlive,
        Option.map_some']
    · intro q2 hq2
      rw [← (f7 q2 hq2).1, ← (f7 q2 hq2).2]
      exact ⟨by simp [Function.update_noteq hq2], by simp [Function.update_noteq hq2]⟩

theorem queueOpt_exitFrame {m m2 : Mem} {q q2 : Nat} {ps ps2 : List Nat}
    (hf : ExitFrame m m2 q ps) (h : QueueOpt m q2 ps2) (hne : q2 ≠ 0 → q2 ≠ q)
    (hd : ∀ a ∈ ps2, a ∉ ps) :
    QueueOpt m2 q2 ps2 ∧ (q2 ≠ 0 → m2.queues.live q2 = m.queues.live q2) := by
  obtain ⟨_, _, _, _, f5, f6, f7⟩ := hf
  by_cases hq : q2 = 0
  · rcases h with h | h
    · exact ⟨Or.inl h, fun h0 => absurd hq h0⟩
    · exact absurd hq h.1
  · refine ⟨queueOpt_of_same h (f7 q2 (hne hq)).1
        (fun a ha => ⟨f5 a (hd a ha), f6 a (hd a ha)⟩),
      fun _ => (f7 q2 (hne hq)).2⟩

/-- Teardown of an initialised controller whose blocks are allocated: with fuel for the
nodes of each queue `exit_ringbuffer` returns, leaves null in the handle, and has released
the controller block. -/
theorem exit_ringbuffer_spec {m : Mem} {ctrl : Nat} {L : RingBufferIOTaskType → List Nat}
    (fuel : Nat) (hC : CtrlRep m ctrl L) (hO : CtrlOwned m ctrl)
    (hf : ∀ ty, (L ty).length ≤ fuel) :
    ∃ m2, exit_ringbuffer fuel m ctrl = some (0, m2) ∧ m2.ctrls.live ctrl = false := by
  obtain ⟨hc, hring, hqs, hdq, hdl, _⟩ := hC
  obtain ⟨o1, o2, o3, o4⟩ := hO
  -- the ring and its pool
  obtain ⟨m1, h1, a1, a2, a3⟩ : ∃ m1,
      (if (m.ctrls.cell ctrl).ring ≠ 0 then
        (if (m.rings.cell (m.ctrls.cell ctrl).ring).pool ≠ 0 then
            m.pools.free (m.rings.cell (m.ctrls.cell ctrl).ring).pool
          else some m.pools).bind fun pools1 =>
          (m.rings.free (m.ctrls.cell ctrl).ring).map fun rings1 =>
            { m with pools := pools1, rings := rings1 }
        else some m) = some m1 ∧
      m1.ctrls = m.ctrls ∧ m1.queues = m.queues ∧ m1.nodes = m.nodes := by
    by_cases hp : (m.rings.cell (m.ctrls.cell ctrl).ring).pool = 0
    · refine ⟨{ m with rings :=
          { m.rings with
            cell := (Function.update m.rings.cell (m.ctrls.cell ctrl).ring
              (m.rings.scrub (m.ctrls.cell ctrl).ring (m.rings.cell (m.ctrls.cell ctrl).ring)))
            live := Function.update m.rings.live (m.ctrls.cell ctrl).ring false } },
        ?_, rfl, rfl, rfl⟩
      simp [hring, hp, free_ok _ _ hring o2]
    · refine ⟨{ m with
          pools := { m.pools with
            cell := (Function.update m.pools.cell (m.rings.cell (m.ctrls.cell ctrl).ring).pool
              (m.pools.scrub (m.rings.cell (m.ctrls.cell ctrl).ring).pool
                (m.pools.cell (m.rings.cell (m.ctrls.cell ctrl).ring).pool)))
            live := (Function.update m.pools.live
              (m.rings.cell (m.ctrls.cell ctrl).ring).pool false) },
          rings := { m.rings with
            cell := (Function.update m.rings.cell (m.ctrls.cell ctrl).ring
              (m.rings.scrub (m.ctrls.cell ctrl).ring (m.rings.cell (m.ctrls.cell ctrl).ring)))
            live := (Function.update m.rings.live (m.ctrls.cell ctrl).ring false) } },
        ?_, rfl, rfl, rfl⟩
      simp [hring, hp, free_ok _ _ hring o2, free_ok _ _ hp (o3 hp)]
  have hq1 : ∀ ty, QueueOpt m1 (queue_of ty (m.ctrls.cell ctrl)) (L ty) := fun ty =>
    queueOpt_of_same (hqs ty) (by rw [a2]) (fun a _ => by rw [a3]; exact ⟨rfl, rfl⟩)
  have hl1 : ∀ ty, queue_of ty (m.ctrls.cell ctrl) ≠ 0 →
      m1.queues.live (queue_of ty (m.ctrls.cell ctrl)) = true := fun ty h0 => by
    rw [a2]; exact o4 ty h0
  have hne : ∀ ty ty2, ty ≠ ty2 → queue_of ty (m.ctrls.cell ctrl) ≠ 0 →
      queue_of ty (m.ctrls.cell ctrl) ≠ queue_of ty2 (m.ctrls.cell ctrl) :=
    fun ty ty2 hty h0 heq => h0 (hdq ty ty2 hty heq)
  -- the write queue
  obtain ⟨ma, ha, fa⟩ := queue_exit_spec fuel (hq1 RingBufferIOTask_WRITE)
    (hl1 RingBufferIOTask_WRITE) (hf RingBufferIOTask_WRITE)
  -- the read queue
  obtain ⟨hqa_r, hla_r⟩ := queueOpt_exitFrame fa (hq1 RingBufferIOTask_READ)
    (hne RingBufferIOTask_READ RingBufferIOTask_WRITE (by decide))
    (hdl RingBufferIOTask_READ RingBufferIOTask_WRITE (by decide))
  obtain ⟨hqa_f, hla_f⟩ := queueOpt_exitFrame fa (hq1 RingBufferIOTask_FLUSH)
    (hne RingBufferIOTask_FLUSH RingBufferIOTask_WRITE (by decide))
    (hdl RingBufferIOTask_FLUSH RingBufferIOTask_WRITE (by decide))
  obtain ⟨mb, hb, fb⟩ := queue_exit_spec fuel hqa_r
    (fun h0 => by rw [hla_r h0]; exact hl1 RingBufferIOTask_READ h0) (hf RingBufferIOTask_READ)
  -- the flush queue
  obtain ⟨hqb_f, hlb_f⟩ := queueOpt_exitFrame fb hqa_f
    (hne RingBufferIOTask_FLUSH RingBufferIOTask_READ (by decide))
    (hdl RingBufferIOTask_FLUSH RingBufferIOTask_READ (by decide))
  obtain ⟨mc, hcx, fc⟩ := queue_exit_spec fuel hqb_f
    (fun h0 => by rw [hlb_f h0, hla_f h0]; exact hl1 RingBufferIOTask_FLUSH h0)
    (hf RingBufferIOTask_FLUSH)
  have ca : ma.ctrls = m.ctrls := fa.1.trans a1
  have cb : mb.ctrls = m.ctrls := fb.1.trans ca
  have cc : mc.ctrls = m.ctrls := fc.1.trans cb
  refine ⟨{ mc with ctrls := { mc.ctrls with
      cell := Function.update mc.ctrls.cell ctrl (mc.ctrls.scrub ctrl (mc.ctrls.cell ctrl))
      live := Function.update mc.ctrls.live ctrl false } },
    ?_, by simp⟩
  unfold exit_ringbuffer
  simp only [if_neg hc]
  rw [h1]
  simp only [Option.some_bind, a1]
  have ha2 : queue_exit fuel m1 (m.ctrls.cell ctrl).wr_queue =
      some (RingBufferQueueOp_OK, ma) := ha
  rw [ha2]
  simp only [Option.some_bind, ca]
  have hb2 : queue_exit fuel ma (m.ctrls.cell ctrl).rd_queue =
      some (RingBufferQueueOp_OK, mb) := hb
  rw [hb2]
  simp only [Option.some_bind, cb]
  have hc2 : queue_exit fuel mb (m.ctrls.cell ctrl).fl_queue =
      some (RingBufferQueueOp_OK, mc) := hcx
  rw [hc2]
  simp only [Option.some_bind, cc, if_neg hring, free_ok _ ctrl hc o1, Option.map_some']

theorem malloc_live {α : Type} (s : Store α) (c : Nat) (h : (s.malloc c).1 ≠ 0) :
    (s.malloc c).2.live (s.malloc c).1 = true := by
  rcases choice_cases s c with hc | hc
  · rw [malloc_ok _ _ hc.1 hc.2]
    simp
  · rw [malloc_fail _ _ hc] at h
    exact absurd rfl h

/-- The controller `init_ringbuffer` yields owns allocated blocks. -/
theorem init_ringbuffer_owned {m m0 : Mem} {c_ctrl c_ring c_pool c_wr c_rd c_fl ctrl : Nat}
    (h : init_ringbuffer m c_ctrl c_ring c_pool c_wr c_rd c_fl =
      some (RingBufferInit_OK, ctrl, m0)) :
    CtrlOwned m0 ctrl := by
  unfold init_ringbuffer at h
  rcases choice_cases m.ctrls c_ctrl with hcc | hcc
  · rw [malloc_ok _ _ hcc.1 hcc.2] at h
    simp only [if_neg hcc.1] at h
    rcases choice_cases m.rings c_ring with hcr | hcr
    · rw [malloc_ok _ _ hcr.1 hcr.2] at h
      simp only [if_neg hcr.1] at h
      generalize hq1 : queue_init _ c_wr = r1 at h
      obtain ⟨res1, wr, m5⟩ := r1
      simp only [] at h
      generalize hq2 : queue_init _ c_rd = r2 at h
      obtain ⟨res2, rd, m6⟩ := r2
      simp only [] at h
      generalize hq3 : queue_init _ c_fl = r3 at h
      obtain ⟨res3, fl, m7⟩ := r3
      simp only [Option.some.injEq, Prod.mk.injEq, true_and] at h
      obtain ⟨rfl, rfl⟩ := h
      obtain ⟨⟨a1, a2, a3, _, _⟩, b1, _⟩ := queue_init_step hq1
      obtain ⟨⟨d1, d2, d3, _, _⟩, e1, f1⟩ := queue_init_step hq2
      obtain ⟨⟨g1, g2, g3, _, _⟩, i1, j1⟩ := queue_init_step hq3
      simp only [] at a1 a2 a3 d1 d2 d3 g1 g2 g3 e1 f1 i1 j1
      have hcell : (m7.ctrls.write c_ctrl
          { m7.ctrls.cell c_ctrl with fl_queue := fl }).cell c_ctrl = ⟨c_ring, wr, rd, fl⟩ := by
        simp [Store.write, g1, d1, a1]
      refine ⟨?_, ?_, ?_, ?_⟩
      · simp [Store.write, g1, d1, a1]
      · simp only [hcell]
        simp [Store.write, g2, d2, a2]
      · simp only [hcell]
        intro hp
        have hpool : (m7.rings.cell c_ring).pool = (m.pools.malloc c_pool).1 := by
          simp [Store.write, g2, d2, a2]
        rw [hpool] at hp ⊢
        rw [g3, d3, a3]
        exact malloc_live _ _ hp
      · simp only [hcell]
        intro ty hty
        cases ty
        · rcases b1 with b1 | ⟨_, _, bl, _⟩
          · exact absurd b1 hty
          · exact (j1 wr (f1 wr bl).1).1
        · rcases e1 with e1 | ⟨_, _, el, _⟩
          · exact absurd e1 hty
          · exact (j1 rd el).1
        · rcases i1 with i1 | ⟨_, _, il, _⟩
          · exact absurd i1 hty
          · exact il
    · exfalso
      rw [malloc_fail _ _ hcr] at h
      simp only [if_true] at h
      generalize Store.free _ c_ctrl = o at h
      cases o <;> simp at h
  · rw [malloc_fail _ _ hcc] at h
    simp at h

/-- A submit keeps the blocks of the controller allocated. -/
theorem submit_body_owned {ty : RingBufferIOTaskType} {m m2 : Mem} {ctrl : Nat} {size : Int}
    {c_task c_node : Nat} {r : Int} {L : RingBufferIOTaskType → List Nat}
    (hC : CtrlRep m ctrl L) (hO : CtrlOwned m ctrl)
    (h : submit_body ty m ctrl size c_task c_node = some (r, m2)) : CtrlOwned m2 ctrl := by
  have hst : m2.ctrls = m.ctrls ∧ m2.rings = m.rings ∧ m2.pools = m.pools ∧
      m2.queues.live = m.queues.live := by
    by_cases hr : r = 0
    · subst hr
      obtain ⟨_, _, _, _, _, hs1, hs2, hs3, _, hs5, _⟩ :=
        submit_body_success hC.1 hC.2.1 (hC.2.2.1 ty) h
      exact ⟨hs1, hs2, hs3, hs5⟩
    · obtain ⟨_, h1, h2, h3, h4, _⟩ := submit_body_failure h hr
      exact ⟨h1, h2, h3, by rw [h4]⟩
  obtain ⟨s1, s2, s3, s4⟩ := hst
  unfold CtrlOwned
  rw [s1, s2, s3, s4]
  exact hO

theorem fresh_ctrl_owned : CtrlOwned Mem.fresh_ctrl 1 :=
  init_ringbuffer_owned fresh_ctrl_init

theorem after_write_eq :
    submit_body RingBufferIOTask_WRITE Mem.fresh_ctrl 1 128 1 1 = some (0, Mem.after_write) :=
  rfl

theorem after_write_rep :
    CtrlRep Mem.after_write 1
      (Function.update (fun _ => []) RingBufferIOTask_WRITE ([] ++ [1])) :=
  (submit_body_ctrl fresh_ctrl_rep after_write_eq).1

theorem after_write_owned : CtrlOwned Mem.after_write 1 :=
  submit_body_owned fresh_ctrl_rep fresh_ctrl_owned after_write_eq

theorem after_write_fuel (ty : RingBufferIOTaskType) :
    (Function.update (fun _ => ([] : List Nat)) RingBufferIOTask_WRITE ([] ++ [1]) ty).length
      ≤ 1 := by
  cases ty <;> simp [Function.update]

/-- C15: teardown is idempotent.  On an initialised controller whose blocks are allocated
(as `init_ringbuffer` leaves them and submits keep them), `exit_ringbuffer`, with fuel for
the nodes of each queue, returns and leaves null in the handle, the controller block being
released; called again on that handle, now null, it returns the memory as it is and leaves
the handle null; and on any memory a call on a null handle does nothing. -/
theorem C15_teardown_idempotent (m : Mem) (ctrl : Nat) (L : RingBufferIOTaskType → List Nat)
    (hC : CtrlRep m ctrl L) (hO : CtrlOwned m ctrl) (fuel : Nat)
    (hf : ∀ ty, (L ty).length ≤ fuel) :
    (∃ m2, exit_ringbuffer fuel m ctrl = some (0, m2) ∧ m2.ctrls.live ctrl = false ∧
      exit_ringbuffer fuel m2 0 = some (0, m2)) ∧
    ∀ (m3 : Mem) (fuel3 : Nat), exit_ringbuffer fuel3 m3 0 = some (0, m3) := by
  have hnull : ∀ (m3 : Mem) (fuel3 : Nat), exit_ringbuffer fuel3 m3 0 = some (0, m3) := by
    intro m3 fuel3
    simp [exit_ringbuffer]
  obtain ⟨m2, h1, h2⟩ := exit_ringbuffer_spec fuel hC hO hf
  exact ⟨⟨m2, h1, h2, hnull m2 fuel⟩, hnull⟩

theorem C15_teardown_idempotent_witness :
    CtrlRep Mem.after_write 1
      (Function.update (fun _ => []) RingBufferIOTask_WRITE ([] ++ [1])) ∧
    CtrlOwned Mem.after_write 1 ∧
    (∀ ty, (Function.update (fun _ => ([] : List Nat)) RingBufferIOTask_WRITE ([] ++ [1])
      ty).length ≤ 1) ∧
    (∃ m2, exit_ringbuffer 1 Mem.after_write 1 = some (0, m2) ∧ m2.ctrls.live 1 = false ∧
      exit_ringbuffer 1 m2 0 = some (0, m2)) ∧
    ∀ (m3 : Mem) (fuel3 : Nat), exit_ringbuffer fuel3 m3 0 = some (0, m3) :=
  ⟨after_write_rep, after_write_owned, after_write_fuel,
    C15_teardown_idempotent Mem.after_write 1 _ after_write_rep after_write_owned 1
      after_write_fuel⟩

end PMRingBuffer
